import Mathlib

/-!
The Vox tree-walking interpreter (`js/interpreter.js`)

A shallow embedding of the evaluator: the scope chain (`Context`), the runtime
values (`VoxObject`, `VoxFunction`, `VoxClass`), and the visitor methods of
`Interpreter`.  Heap-allocated contexts and objects live in an explicit store
and are referred to by index.  The dictionaries `variables` and `fields` are
plain host objects: besides their own properties they have a prototype, the
method `hasOwnProperty` is looked up on the dictionary itself, and a write to
`__proto__` reaches the accessor of `Object.prototype`.  Host numbers are
IEEE-754 binary64 values, modelled exactly as integer multiples of `2^-1074`.
-/

namespace Vox

/-! ## Host numbers -/

/-- Helper for `bitLen`: halve until zero, at most `fuel` times. -/
def bitLenAux : Nat → Nat → Nat
  | 0, _ => 0
  | fuel + 1, n => if n = 0 then 0 else bitLenAux fuel (n / 2) + 1

/-- Number of binary digits of `n` (`0` for `0`). -/
def bitLen (n : Nat) : Nat := bitLenAux n n

/-- A JavaScript number.  `fin neg k` is the finite double of magnitude
`k * 2^-1074` (every finite double is such a multiple), with sign bit `neg`. -/
inductive Dbl where
  | nan
  | inf (neg : Bool)
  | fin (neg : Bool) (k : Nat)
  deriving DecidableEq, Repr

namespace Dbl

/-- The double `1.0`, in units of `2^-1074`. -/
def one : Nat := 2 ^ 1074

/-- The first magnitude that overflows to infinity: `2^1024`, in units of `2^-1074`. -/
def overflow : Nat := 2 ^ 2098

/-- Magnitudes (in units of `2^-1074`) that a double can hold: below `2^1024`
and with at most 53 significant bits. -/
def representable (k : Nat) : Prop :=
  k < overflow ∧ k % 2 ^ (bitLen k - 53) = 0

instance (k : Nat) : Decidable (representable k) := by
  unfold representable; exact inferInstance

/-- A well-formed double. -/
def valid : Dbl → Prop
  | fin _ k => representable k
  | _ => True

/-- The quotient `n / d` rounded to the nearest integer, ties to even. -/
def halfEven (n d : Nat) : Nat :=
  if d < 2 * (n % d) ∨ (2 * (n % d) = d ∧ (n / d) % 2 = 1) then n / d + 1 else n / d

/-- Round-to-nearest, ties-to-even, of the magnitude `n / d` (in units of
`2^-1074`) to a double of sign `neg`. -/
def round (neg : Bool) (n d : Nat) : Dbl :=
  let s := bitLen (n / d) - 53
  let k := halfEven n (d * 2 ^ s) * 2 ^ s
  if overflow ≤ k then inf neg else fin neg k

/-- Unary minus. -/
def neg : Dbl → Dbl
  | nan => nan
  | inf s => inf (!s)
  | fin s k => fin (!s) k

/-- IEEE addition. -/
def add : Dbl → Dbl → Dbl
  | nan, _ => nan
  | _, nan => nan
  | inf s, inf t => if s = t then inf s else nan
  | inf s, fin _ _ => inf s
  | fin _ _, inf t => inf t
  | fin s a, fin t b =>
    if s = t then round s (a + b) 1
    else if a = b then fin false 0
    else if b < a then round s (a - b) 1
    else round t (b - a) 1

/-- IEEE subtraction. -/
def sub (x y : Dbl) : Dbl := add x (neg y)

/-- IEEE multiplication. -/
def mul : Dbl → Dbl → Dbl
  | nan, _ => nan
  | _, nan => nan
  | inf s, inf t => inf (xor s t)
  | inf s, fin t b => if b = 0 then nan else inf (xor s t)
  | fin s a, inf t => if a = 0 then nan else inf (xor s t)
  | fin s a, fin t b => round (xor s t) (a * b) one

/-- IEEE division. -/
def div : Dbl → Dbl → Dbl
  | nan, _ => nan
  | _, nan => nan
  | inf _, inf _ => nan
  | inf s, fin t _ => inf (xor s t)
  | fin s _, inf t => fin (xor s t) 0
  | fin s a, fin t b =>
    if b = 0 then (if a = 0 then nan else inf (xor s t))
    else round (xor s t) (a * one) b

/-- The `%` operator of JavaScript: the exact remainder of the truncating
division, carrying the sign of the dividend. -/
def rem : Dbl → Dbl → Dbl
  | nan, _ => nan
  | _, nan => nan
  | inf _, _ => nan
  | fin s a, inf _ => fin s a
  | fin s a, fin _ b => if b = 0 then nan else fin s (a % b)

/-- Position of a non-NaN number on the extended real line, `none` for NaN. -/
def rank : Dbl → Option (Int × Int)
  | nan => none
  | inf true => some (-1, 0)
  | inf false => some (1, 0)
  | fin true k => some (0, -(k : Int))
  | fin false k => some (0, (k : Int))

/-- The comparison `x < y`; `none` (undefined) when an operand is NaN. -/
def lt (x y : Dbl) : Option Bool :=
  match rank x, rank y with
  | some (a, b), some (c, d) => some (decide (a < c ∨ (a = c ∧ b < d)))
  | _, _ => none

/-- Numeric equality as used by `===`: NaN differs from everything, `+0`
equals `-0`. -/
def eq (x y : Dbl) : Bool :=
  match rank x, rank y with
  | some p, some q => decide (p = q)
  | _, _ => false

/-- The double holding the integer `z`, when `z` is representable. -/
def ofInt (z : Int) : Dbl := fin (decide (z < 0)) (z.natAbs * one)

/-- The integer value of an integer-valued finite double. -/
def toInt : Dbl → Option Int
  | fin s k => if k % one = 0 then some (if s then -((k / one : Nat) : Int) else ((k / one : Nat) : Int)) else none
  | _ => none

end Dbl

/-! ## Runtime values -/

/-- Host functions registered in the global scope by the `Interpreter`
constructor; `print` is the only one. -/
inductive Native where
  | print
  deriving DecidableEq, Repr

/-- A value the evaluator can produce: the host primitives `undefined`,
booleans, numbers and strings, a native function, or a reference to a
heap-allocated `VoxObject` (plain object, `VoxFunction` or `VoxClass`). -/
inductive Value where
  | undefined
  | bool (b : Bool)
  | num (d : Dbl)
  | str (s : String)
  | native (f : Native)
  | obj (ref : Nat)
  deriving DecidableEq, Repr

/-- Host conversions between numbers and strings outside the cases modelled
exactly below (decimal formatting of numbers that are not safe integers,
parsing of general numeric literals). -/
structure Host where
  formatNumber : Dbl → String
  parseNumber : String → Dbl

/-- Source text of the native `print`, the result of its `toString()`. -/
def printSource : String :=
  "function(text) \x7b\n    console.log(text);\n    return text;\n  \x7d"

/-- Number::toString: exact for NaN, the infinities and the integers of
magnitude at most `2^53`; the host formats the rest. -/
def numToString (H : Host) : Dbl → String
  | .nan => "NaN"
  | .inf false => "Infinity"
  | .inf true => "-Infinity"
  | .fin s k =>
    if k % Dbl.one = 0 ∧ k / Dbl.one ≤ 2 ^ 53 then
      (if s = true ∧ k ≠ 0 then "-" else "") ++ Nat.repr (k / Dbl.one)
    else H.formatNumber (.fin s k)

/-- Value of a string of decimal digits. -/
def decimalValue (cs : List Char) : Nat :=
  cs.foldl (fun n c => 10 * n + (c.toNat - 48)) 0

/-- StringToNumber: exact for the empty string, for strings of decimal digits,
and for strings that hold a visible ASCII character but neither a digit nor
the letter `I` (these are never numeric literals); the host parses the rest. -/
def strToNum (H : Host) (s : String) : Dbl :=
  if s.toList = [] then .fin false 0
  else if s.toList.all Char.isDigit then Dbl.round false (decimalValue s.toList * Dbl.one) 1
  else if !(s.toList.any Char.isDigit) && !(s.toList.any (fun c => c = 'I'))
      && s.toList.any (fun c => 0x21 ≤ c.toNat ∧ c.toNat ≤ 0x7E) then .nan
  else H.parseNumber s

/-- ToPrimitive: heap objects stringify through `Object.prototype.toString`,
the native function through its source text. -/
def toPrimitive : Value → Value
  | .obj _ => .str "[object Object]"
  | .native _ => .str printSource
  | v => v

/-- ToNumber. -/
def toNumber (H : Host) (v : Value) : Dbl :=
  match toPrimitive v with
  | .undefined => .nan
  | .bool b => if b then Dbl.ofInt 1 else Dbl.ofInt 0
  | .num d => d
  | .str s => strToNum H s
  | _ => .nan

/-- ToString. -/
def toStr (H : Host) (v : Value) : String :=
  match toPrimitive v with
  | .undefined => "undefined"
  | .bool b => if b then "true" else "false"
  | .num d => numToString H d
  | .str s => s
  | _ => ""

/-- ToBoolean, the truthiness used by `if (condition)`, `while`, `!` and the
logical operators. -/
def truthy : Value → Bool
  | .undefined => false
  | .bool b => b
  | .num .nan => false
  | .num (.fin _ k) => k != 0
  | .num (.inf _) => true
  | .str s => s.toList != []
  | .native _ => true
  | .obj _ => true

/-- UTF-16 code units of a character. -/
def utf16 (c : Char) : List Nat :=
  if c.toNat < 0x10000 then [c.toNat]
  else [0xD800 + (c.toNat - 0x10000) / 0x400, 0xDC00 + (c.toNat - 0x10000) % 0x400]

/-- UTF-16 code units of a list of characters. -/
def codeUnits : List Char → List Nat
  | [] => []
  | c :: cs => utf16 c ++ codeUnits cs

/-- Lexicographic order on code-unit sequences. -/
def lexLt : List Nat → List Nat → Bool
  | _, [] => false
  | [], _ :: _ => true
  | a :: as, b :: bs => if a < b then true else if b < a then false else lexLt as bs

/-- Abstract relational comparison `l < r`; `none` when undefined (NaN). -/
def jsLt (H : Host) (l r : Value) : Option Bool :=
  match toPrimitive l, toPrimitive r with
  | .str s, .str t => some (lexLt (codeUnits s.toList) (codeUnits t.toList))
  | pl, pr => Dbl.lt (toNumber H pl) (toNumber H pr)

/-- Strict equality `l === r`. -/
def strictEq : Value → Value → Bool
  | .undefined, .undefined => true
  | .bool a, .bool b => a == b
  | .num a, .num b => Dbl.eq a b
  | .str a, .str b => a == b
  | .native a, .native b => a == b
  | .obj a, .obj b => a == b
  | _, _ => false

/-- The host `+`: concatenation when either primitive is a string, numeric
addition otherwise. -/
def jsAdd (H : Host) (l r : Value) : Value :=
  match toPrimitive l, toPrimitive r with
  | .str s, pr => .str (s ++ toStr H pr)
  | pl, .str t => .str (toStr H pl ++ t)
  | pl, pr => .num (Dbl.add (toNumber H pl) (toNumber H pr))

/-- Modelled from the spec: the token kinds of `token.js` that the evaluator
compares `node.op` against; `other` stands for every remaining token. -/
inductive Token where
  | plus | minus | star | slash | percent
  | equalEqual | bangEqual | less | greater | lessEqual | greaterEqual
  | bang | and | or | other
  deriving DecidableEq, Repr

/-- The `switch (node.op)` of `visitBinaryExpr`, applied to the two operand
values; an operator outside the switch leaves the result `undefined`. -/
def binaryOp (H : Host) (op : Token) (left right : Value) : Value :=
  match op with
  | .plus => jsAdd H left right
  | .minus => .num (Dbl.sub (toNumber H left) (toNumber H right))
  | .star => .num (Dbl.mul (toNumber H left) (toNumber H right))
  | .slash => .num (Dbl.div (toNumber H left) (toNumber H right))
  | .percent => .num (Dbl.rem (toNumber H left) (toNumber H right))
  | .equalEqual => .bool (strictEq left right)
  | .bangEqual => .bool (!strictEq left right)
  | .less => .bool ((jsLt H left right).getD false)
  | .greater => .bool ((jsLt H right left).getD false)
  | .lessEqual => .bool ((jsLt H right left) == some false)
  | .greaterEqual => .bool ((jsLt H left right) == some false)
  | _ => .undefined

/-- The `switch (node.op)` of `visitUnaryExpr`. -/
def unaryOp (H : Host) (op : Token) (right : Value) : Value :=
  match op with
  | .plus => .num (toNumber H right)
  | .minus => .num (Dbl.neg (toNumber H right))
  | .bang => .bool (!truthy right)
  | _ => .undefined

/-! ## Syntax trees -/

mutual
/-- Modelled from the spec: the node kinds of `ast.js`, with the fields the
visitor methods read.  Statements and expressions share one type because
`Interpreter.evaluate` dispatches on either. -/
inductive Node where
  | blockStmt (statements : List Node)
  | expressionStmt (expression : Node)
  | classStmt (name : String) (methods : List MethodDecl)
  | funStmt (name : String) (parameters : List String) (body : Node)
  | ifStmt (condition thenBranch elseBranch : Node)
  | varStmt (name : String) (initializer : Node)
  | whileStmt (condition body : Node)
  | assignExpr (target value : Node)
  | binaryExpr (left : Node) (op : Token) (right : Node)
  | callExpr (fn : Node) (args : List Node)
  | logicalExpr (left : Node) (op : Token) (right : Node)
  | numberExpr (value : Dbl)
  | propertyExpr (object : Node) (name : String)
  | stringExpr (value : String)
  | unaryExpr (op : Token) (right : Node)
  | variableExpr (name : String)
/-- A method of a class declaration. -/
inductive MethodDecl where
  | mk (name : String) (parameters : List String) (body : Node)
end

/-- Name of a method declaration. -/
def MethodDecl.name : MethodDecl → String
  | .mk n _ _ => n

/-- Parameter names of a method declaration. -/
def MethodDecl.parameters : MethodDecl → List String
  | .mk _ ps _ => ps

/-- Body of a method declaration. -/
def MethodDecl.body : MethodDecl → Node
  | .mk _ _ b => b

/-! ## Store -/

/-- The own properties of a host object with their values, oldest first. -/
abbrev Dict (α : Type) := List (String × α)

/-- Whether `name` is listed among the own properties. -/
def Dict.owns {α : Type} : Dict α → String → Bool
  | [], _ => false
  | (k, _) :: rest, name => if k = name then true else Dict.owns rest name

/-- The value listed for the own property `name`. -/
def Dict.get? {α : Type} : Dict α → String → Option α
  | [], _ => none
  | (k, v) :: rest, name => if k = name then some v else Dict.get? rest name

/-- List `name` with `value`: in place when `name` is listed already, as a new
own property otherwise. -/
def Dict.store {α : Type} : Dict α → String → α → Dict α
  | [], name, value => [(name, value)]
  | (k, v) :: rest, name, value =>
    if k = name then (k, value) :: rest else (k, v) :: Dict.store rest name value

/-- The names of the own properties. -/
def Dict.keys {α : Type} (d : Dict α) : List String := d.map Prod.fst

/-- A plain host object, created by `{}` and used as a dictionary
(`variables` of a `Context`, `fields` of a `VoxObject`).  `own` lists its own
properties; `proto` is its prototype once a write to `__proto__` has replaced
it, `none` while it is still `Object.prototype`. -/
structure Props where
  own : Dict Value := []
  proto : Option Value := none

/-- A scope: `new Context(outer)`.  `outer` is the index of the enclosing
context in the store, `none` for the global context; `vars` is the
`variables` dictionary. -/
structure Context where
  outer : Option Nat
  vars : Props

/-- The closure triple of `new VoxFunction(parameters, body, closure)`;
`closure` is the index of the captured context. -/
structure VoxFunction where
  parameters : List String
  body : Node
  closure : Nat

/-- What a heap object is besides its `fields`: a plain `VoxObject`, a
`VoxFunction`, or a `VoxClass` with its `constructor` and `methods`.  The
function objects held by a class are never handed out as values, so they are
stored in place. -/
inductive Kind where
  | object
  | function (fn : VoxFunction)
  | class (constructor : Option VoxFunction) (methods : Dict VoxFunction)

/-- A heap object: every `VoxObject` carries a `fields` dictionary. -/
structure VoxObject where
  fields : Props
  kind : Kind

/-- The mutable world of a run: allocated contexts, allocated objects, and the
values written by `print` (oldest first). -/
structure State where
  contexts : List Context
  objects : List VoxObject
  output : List Value

/-- What can be thrown: a `RuntimeError` carrying a message, a bare string
(`throw "not impl"`), or a `TypeError` raised by the host itself. -/
inductive Err where
  | runtimeError (message : String)
  | thrown (value : String)
  | hostTypeError
  deriving DecidableEq, Repr

/-- Result of running code from a state: `none` when the run yields nothing
the embedding can represent (fuel exhausted, a reference outside the store, or
a host value that is not a Vox value), otherwise the value returned or the
error thrown, with the state reached. -/
abbrev Res (α : Type) := Option (Except Err α × State)

/-- Sequencing: continue with the value and state of a normal completion,
propagate an error or non-termination. -/
def Res.andThen {α β : Type} (r : Res α) (k : α → State → Res β) : Res β :=
  match r with
  | none => none
  | some (.error e, st) => some (.error e, st)
  | some (.ok a, st) => k a st

/-- The allocation `new Context(outer)`: returns the index of the new context. -/
def newContext (st : State) (outer : Option Nat) : Nat × State :=
  (st.contexts.length, { st with contexts := st.contexts ++ [⟨outer, {}⟩] })

/-- Allocation of a heap object: returns its index. -/
def newObject (st : State) (o : VoxObject) : Nat × State :=
  (st.objects.length, { st with objects := st.objects ++ [o] })

/-! ## Host objects as dictionaries

`variables` and `fields` are plain host objects, so the three operations the
interpreter performs on them go through the host's property lookup:
`dict.hasOwnProperty(name)` first looks up the property `hasOwnProperty` on the
dictionary itself, `dict[name] = value` writes through the accessor `__proto__`
of `Object.prototype`, and `dict[name]` reads inherited properties too. -/

/-- The data properties every object inherits from `Object.prototype`.  Their
values are host functions. -/
def objectPrototypeNames : List String :=
  ["constructor", "hasOwnProperty", "isPrototypeOf", "propertyIsEnumerable", "toLocaleString",
    "toString", "valueOf", "__defineGetter__", "__defineSetter__", "__lookupGetter__",
    "__lookupSetter__"]

/-- Further properties of a host function whose values are host objects:
its own `prototype` and the methods of `Function.prototype`. -/
def functionPrototypeNames : List String := ["prototype", "apply", "bind", "call"]

/-- The properties a host function does not let an inheriting object write
in strict mode: its read-only `length` and `name`, and the throwing accessors
`arguments` and `caller`. -/
def readOnlyFunctionNames : List String := ["length", "name", "arguments", "caller"]

/-- The own properties the constructors `VoxObject`, `VoxFunction` and
`VoxClass` give an instance.  Their values are host objects (or `null`). -/
def Kind.propertyNames : Kind → List String
  | .object => ["fields"]
  | .function _ => ["fields", "parameters", "body", "closure"]
  | .class _ _ => ["fields", "constructor", "methods"]

/-- The call `dict.hasOwnProperty(name)` (lines 204, 273, 292).  The method is
looked up on `dict` first.  While `dict` has no own property `hasOwnProperty`
the inherited `Object.prototype.hasOwnProperty` runs and answers whether
`name` is an own property.  Once the program has stored a value under the key
`hasOwnProperty`, that value is called instead: the native `print` logs
`name` and returns it, and any other value is not a host function, so the
host throws a `TypeError`. -/
def Props.hasOwnProperty (dict : Props) (name : String) (st : State) : Res Value :=
  match dict.own.get? "hasOwnProperty" with
  | none => some (.ok (.bool (dict.own.owns name)), st)
  | some (.native .print) =>
    some (.ok (.str name), { st with output := st.output ++ [.str name] })
  | some _ => some (.error .hostTypeError, st)

/-- The write `dict[name] = value` (lines 97, 296, 304), in strict mode.  For
`name = "__proto__"` the write reaches the accessor of `Object.prototype`,
which creates no own property: it replaces the prototype when `value` is an
object or a function and does nothing otherwise.  An own property is
overwritten.  Any other name becomes a new own property, unless the
prototype is a host function and the name is one it does not let an
inheriting object write, in which case the host throws a `TypeError`. -/
def Props.put (dict : Props) (name : String) (value : Value) : Except Err Props :=
  if name = "__proto__" then
    match value with
    | .obj _ => .ok { dict with proto := some value }
    | .native _ => .ok { dict with proto := some value }
    | _ => .ok dict
  else if dict.own.owns name then .ok { dict with own := dict.own.store name value }
  else
    match dict.proto with
    | some (.native _) =>
      if readOnlyFunctionNames.contains name then .error .hostTypeError
      else .ok { dict with own := dict.own.store name value }
    | _ => .ok { dict with own := dict.own.store name value }

/-- The read `dict[name]` (lines 205, 300).  An own property yields its value.
Otherwise the prototype chain answers: `__proto__` yields the prototype
itself, a name found on the chain yields what the host keeps there, and a
name found nowhere yields `undefined`.  The outer `none` stands for a host
value that is not a Vox value (a host function or object, such as
`Object.prototype.toString`). -/
def Props.get (objects : List VoxObject) (dict : Props) (name : String) :
    Option (Except Err Value) :=
  match dict.own.get? name with
  | some v => some (.ok v)
  | none =>
    if name = "__proto__" then dict.proto.map .ok
    else
      match dict.proto with
      | none =>
        if objectPrototypeNames.contains name then none else some (.ok .undefined)
      | some (.native _) =>
        -- the prototype is `function(text) ...`, with one parameter and no name
        if name = "length" then some (.ok (.num (Dbl.ofInt 1)))
        else if name = "name" then some (.ok (.str ""))
        else if name = "arguments" ∨ name = "caller" then some (.error .hostTypeError)
        else if functionPrototypeNames.contains name ∨ objectPrototypeNames.contains name then
          none
        else some (.ok .undefined)
      | some (.obj ref) =>
        match objects[ref]? with
        | none => none
        | some o =>
          if o.kind.propertyNames.contains name ∨ objectPrototypeNames.contains name then none
          else some (.ok .undefined)
      | some _ => none

/-- The outcome of a read as the result of a run from `st`. -/
def readResult (r : Option (Except Err Value)) (st : State) : Res Value :=
  match r with
  | none => none
  | some (.error e) => some (.error e, st)
  | some (.ok v) => some (.ok v, st)

/-! ## `Context` methods -/

/-- The loop of `Context.prototype.findDefinition`, started at `context` and
following `outer`; `fuel` bounds the number of contexts visited.  The result is
the index of the context whose `variables` the method returns. -/
def findDefinitionLoop (name : String) : Nat → Option Nat → State → Res Nat
  | _, none, st =>
    some (.error (.runtimeError ("Variable \x27" ++ name ++ "\x27 is not defined.")), st)
  | 0, some _, _ => none
  | fuel + 1, some c, st =>
    match st.contexts[c]? with
    | none => none
    | some cx =>
      (cx.vars.hasOwnProperty name st).andThen fun found st1 =>
        if truthy found then some (.ok c, st1)
        else findDefinitionLoop name fuel cx.outer st1

/-- `Context.prototype.findDefinition`: the index of the innermost context of
the chain for whose variables `hasOwnProperty(name)` answers with a truthy
value. -/
def Context.findDefinition (this : Nat) (name : String) (st : State) : Res Nat :=
  findDefinitionLoop name st.contexts.length (some this) st

/-- `Context.prototype.define`. -/
def Context.define (this : Nat) (name : String) (value : Value) (st : State) : Res Unit :=
  match st.contexts[this]? with
  | none => none
  | some cx =>
    (cx.vars.hasOwnProperty name st).andThen fun found st1 =>
      if truthy found then
        some (.error (.runtimeError ("Variable \x27" ++ name ++ "\x27 is already defined.")), st1)
      else
        match cx.vars.put name value with
        | .error e => some (.error e, st1)
        | .ok vars =>
          some (.ok (), { st1 with contexts := st1.contexts.set this { cx with vars := vars } })

/-- `Context.prototype.lookUp`. -/
def Context.lookUp (this : Nat) (name : String) (st : State) : Res Value :=
  (Context.findDefinition this name st).andThen fun c st1 =>
    match st1.contexts[c]? with
    | none => none
    | some cx => readResult (cx.vars.get st1.objects name) st1

/-- `Context.prototype.assign`. -/
def Context.assign (this : Nat) (name : String) (value : Value) (st : State) : Res Unit :=
  (Context.findDefinition this name st).andThen fun c st1 =>
    match st1.contexts[c]? with
    | none => none
    | some cx =>
      match cx.vars.put name value with
      | .error e => some (.error e, st1)
      | .ok vars =>
        some (.ok (), { st1 with contexts := st1.contexts.set c { cx with vars := vars } })

/-! ## `Interpreter` visitor methods

Each method takes `ev`, the recursive `this.evaluate`, as its first argument. -/

/-- The statement loop of `visitBlockStmt` and `interpret`: evaluate each node
in order against `context`, discarding the values. -/
def evaluateEach (ev : Node → Nat → State → Res Value) : List Node → Nat → State → Res Unit
  | [], _, st => some (.ok (), st)
  | node :: rest, context, st =>
    (ev node context st).andThen fun _ st1 => evaluateEach ev rest context st1

/-- The argument loop of `visitCallExpr`: evaluate each argument in order and
collect the values. -/
def evaluateArgs (ev : Node → Nat → State → Res Value) : List Node → Nat → State → Res (List Value)
  | [], _, st => some (.ok [], st)
  | node :: rest, context, st =>
    (ev node context st).andThen fun v st1 =>
      (evaluateArgs ev rest context st1).andThen fun vs st2 => some (.ok (v :: vs), st2)

/-- `Interpreter.prototype.visitBlockStmt`. -/
def visitBlockStmt (ev : Node → Nat → State → Res Value) (statements : List Node)
    (context : Nat) (st : State) : Res Value :=
  let (context, st) := newContext st (some context)
  (evaluateEach ev statements context st).andThen fun _ st1 => some (.ok .undefined, st1)

/-- `Interpreter.prototype.visitExpressionStmt`. -/
def visitExpressionStmt (ev : Node → Nat → State → Res Value) (expression : Node)
    (context : Nat) (st : State) : Res Value :=
  (ev expression context st).andThen fun _ st1 => some (.ok .undefined, st1)

/-- The method loop of `visitClassStmt`: the method named like the class
becomes the constructor, every other one is written to the host object
`methods` under its name.  A method named `__proto__` reaches the accessor of
`Object.prototype` and adds no property; the prototype of `methods`, which
nothing reads, is not kept. -/
def classMembers (name : String) (context : Nat) :
    List MethodDecl → Option VoxFunction → Dict VoxFunction → Option VoxFunction × Dict VoxFunction
  | [], constructor, methods => (constructor, methods)
  | method :: rest, constructor, methods =>
    let fn : VoxFunction := ⟨method.parameters, method.body, context⟩
    if method.name = name then classMembers name context rest (some fn) methods
    else if method.name = "__proto__" then classMembers name context rest constructor methods
    else classMembers name context rest constructor (methods.store method.name fn)

/-- `Interpreter.prototype.visitClassStmt`. -/
def visitClassStmt (name : String) (methods : List MethodDecl) (context : Nat) (st : State) :
    Res Value :=
  let (constructor, methods) := classMembers name context methods none []
  let (voxClass, st) := newObject st ⟨{}, .class constructor methods⟩
  (Context.define context name (.obj voxClass) st).andThen fun _ st1 => some (.ok .undefined, st1)

/-- `Interpreter.prototype.visitFunStmt`. -/
def visitFunStmt (name : String) (parameters : List String) (body : Node) (context : Nat)
    (st : State) : Res Value :=
  let (fn, st) := newObject st ⟨{}, .function ⟨parameters, body, context⟩⟩
  (Context.define context name (.obj fn) st).andThen fun _ st1 => some (.ok .undefined, st1)

/-- `Interpreter.prototype.visitIfStmt`. -/
def visitIfStmt (ev : Node → Nat → State → Res Value) (condition thenBranch elseBranch : Node)
    (context : Nat) (st : State) : Res Value :=
  (ev condition context st).andThen fun condition st1 =>
    let (context, st2) := newContext st1 (some context)
    if truthy condition then
      (ev thenBranch context st2).andThen fun _ st3 => some (.ok .undefined, st3)
    else
      (ev elseBranch context st2).andThen fun _ st3 => some (.ok .undefined, st3)

/-- `Interpreter.prototype.visitVarStmt`. -/
def visitVarStmt (ev : Node → Nat → State → Res Value) (name : String) (initializer : Node)
    (context : Nat) (st : State) : Res Value :=
  (ev initializer context st).andThen fun value st1 =>
    (Context.define context name value st1).andThen fun _ st2 => some (.ok .undefined, st2)

/-- `Interpreter.prototype.visitWhileStmt`: one turn of the loop; the next
turn re-enters the same statement through `ev`. -/
def visitWhileStmt (ev : Node → Nat → State → Res Value) (condition body : Node)
    (context : Nat) (st : State) : Res Value :=
  (ev condition context st).andThen fun c st1 =>
    if truthy c then
      (ev body context st1).andThen fun _ st2 => ev (.whileStmt condition body) context st2
    else some (.ok .undefined, st1)

/-- `Interpreter.prototype.visitAssignExpr`.  A target that is neither a
`VariableExpr` nor a `PropertyExpr` has no `object`, and evaluating it makes
the host throw. -/
def visitAssignExpr (H : Host) (ev : Node → Nat → State → Res Value) (target value : Node)
    (context : Nat) (st : State) : Res Value :=
  (ev value context st).andThen fun value st1 =>
    match target with
    | .variableExpr name =>
      (Context.assign context name value st1).andThen fun _ st2 => some (.ok value, st2)
    | .propertyExpr object name =>
      (ev object context st1).andThen fun object st2 =>
        match object with
        | .obj ref =>
          match st2.objects[ref]? with
          | none => none
          | some o =>
            match o.fields.put name value with
            | .error e => some (.error e, st2)
            | .ok fields =>
              some (.ok value,
                { st2 with objects := st2.objects.set ref { o with fields := fields } })
        | _ => some (.error (.runtimeError ("Cannot add fields to " ++ toStr H object)), st2)
    | _ => some (.error .hostTypeError, st1)

/-- `Interpreter.prototype.visitBinaryExpr`. -/
def visitBinaryExpr (H : Host) (ev : Node → Nat → State → Res Value) (left : Node) (op : Token)
    (right : Node) (context : Nat) (st : State) : Res Value :=
  (ev left context st).andThen fun left st1 =>
    (ev right context st1).andThen fun right st2 => some (.ok (binaryOp H op left right), st2)

/-- The parameter loop of `visitCallExpr`: define each parameter with the
argument at the same position. -/
def defineParameters : List String → List Value → Nat → State → Res Unit
  | parameter :: parameters, arg :: args, context, st =>
    (Context.define context parameter arg st).andThen fun _ st1 =>
      defineParameters parameters args context st1
  | _, _, _, st => some (.ok (), st)

/-- The dispatch of `visitCallExpr` on the callee value `fn`, once callee and
arguments are evaluated.  `context` is the context of the call site. -/
def callValue (H : Host) (ev : Node → Nat → State → Res Value) (fn : Value) (args : List Value)
    (context : Nat) (st : State) : Res Value :=
  match fn with
  | .native .print =>
    -- fn.apply(this, args): log the first argument and return it.
    let text := args.headD .undefined
    some (.ok text, { st with output := st.output ++ [text] })
  | .obj ref =>
    match st.objects[ref]? with
    | none => none
    | some o =>
      match o.kind with
      | .function fn =>
        if args.length ≠ fn.parameters.length then
          some (.error (.runtimeError "Arity mismatch."), st)
        else
          let (context, st1) := newContext st (some fn.closure)
          (defineParameters fn.parameters args context st1).andThen fun _ st2 =>
            ev fn.body context st2
      | .class constructor _ =>
        let (object, st1) := newObject st ⟨{}, .object⟩
        match constructor with
        | some fn =>
          if args.length ≠ fn.parameters.length then
            some (.error (.runtimeError "Arity mismatch."), st1)
          else
            let (context, st2) := newContext st1 (some fn.closure)
            (Context.define context "this" (.obj object) st2).andThen fun _ st3 =>
              (defineParameters fn.parameters args context st3).andThen fun _ st4 =>
                (ev fn.body context st4).andThen fun _ st5 => some (.ok (.obj object), st5)
        | none => some (.ok (.obj object), st1)
      | .object => some (.error (.runtimeError (toStr H fn ++ " cannot be called.")), st)
  | .undefined =>
    -- `fn.toString()` on `undefined` is a host TypeError.
    some (.error .hostTypeError, st)
  | _ => some (.error (.runtimeError (toStr H fn ++ " cannot be called.")), st)

/-- `Interpreter.prototype.visitCallExpr`. -/
def visitCallExpr (H : Host) (ev : Node → Nat → State → Res Value) (fn : Node) (args : List Node)
    (context : Nat) (st : State) : Res Value :=
  (ev fn context st).andThen fun fn st1 =>
    (evaluateArgs ev args context st1).andThen fun args st2 =>
      callValue H ev fn args context st2

/-- `Interpreter.prototype.visitLogicalExpr`. -/
def visitLogicalExpr (ev : Node → Nat → State → Res Value) (left : Node) (op : Token)
    (right : Node) (context : Nat) (st : State) : Res Value :=
  (ev left context st).andThen fun left st1 =>
    if op = .and then
      if !truthy left then some (.ok left, st1) else ev right context st1
    else
      if truthy left then some (.ok left, st1) else ev right context st1

/-- `Interpreter.prototype.visitPropertyExpr`. -/
def visitPropertyExpr (ev : Node → Nat → State → Res Value) (object : Node) (name : String)
    (context : Nat) (st : State) : Res Value :=
  (ev object context st).andThen fun object st1 =>
    match object with
    | .obj ref =>
      match st1.objects[ref]? with
      | none => none
      | some o =>
        (o.fields.hasOwnProperty name st1).andThen fun found st2 =>
          if truthy found then readResult (o.fields.get st2.objects name) st2
          else some (.error (.thrown "not impl"), st2)
    | _ => some (.error (.thrown "not impl"), st1)

/-- `Interpreter.prototype.visitUnaryExpr`. -/
def visitUnaryExpr (H : Host) (ev : Node → Nat → State → Res Value) (op : Token) (right : Node)
    (context : Nat) (st : State) : Res Value :=
  (ev right context st).andThen fun right st1 => some (.ok (unaryOp H op right), st1)

/-- `Interpreter.prototype.evaluate`: `node.accept(this, context)` dispatches
to the visitor method of the node kind.  `fuel` bounds the nesting of
evaluations, so that the definition is total; a run that needs more returns
`none`. -/
def evaluate (H : Host) : Nat → Node → Nat → State → Res Value
  | 0, _, _, _ => none
  | fuel + 1, node, context, st =>
    match node with
    | .blockStmt statements => visitBlockStmt (evaluate H fuel) statements context st
    | .expressionStmt expression => visitExpressionStmt (evaluate H fuel) expression context st
    | .classStmt name methods => visitClassStmt name methods context st
    | .funStmt name parameters body => visitFunStmt name parameters body context st
    | .ifStmt condition thenBranch elseBranch =>
      visitIfStmt (evaluate H fuel) condition thenBranch elseBranch context st
    | .varStmt name initializer => visitVarStmt (evaluate H fuel) name initializer context st
    | .whileStmt condition body => visitWhileStmt (evaluate H fuel) condition body context st
    | .assignExpr target value => visitAssignExpr H (evaluate H fuel) target value context st
    | .binaryExpr left op right => visitBinaryExpr H (evaluate H fuel) left op right context st
    | .callExpr fn args => visitCallExpr H (evaluate H fuel) fn args context st
    | .logicalExpr left op right => visitLogicalExpr (evaluate H fuel) left op right context st
    | .numberExpr value => some (.ok (.num value), st)
    | .propertyExpr object name => visitPropertyExpr (evaluate H fuel) object name context st
    | .stringExpr value => some (.ok (.str value), st)
    | .unaryExpr op right => visitUnaryExpr H (evaluate H fuel) op right context st
    | .variableExpr name => Context.lookUp context name st

/-- The state built by the `Interpreter` constructor: the global context,
index `0`, with `print` defined. -/
def Interpreter : State :=
  { contexts := [⟨none, { own := [("print", .native .print)] }⟩], objects := [], output := [] }

/-- `Interpreter.prototype.interpret`: run the statements of a program in
order against the global context. -/
def interpret (H : Host) (fuel : Nat) (statements : List Node) (st : State) : Res Unit :=
  evaluateEach (evaluate H fuel) statements 0 st
/-! ## Specification vocabulary -/

/-- The `j`-th enclosing context of `c`: follow `outer` `j` times. -/
def nthOuter (contexts : List Context) : Nat → Nat → Option Nat
  | 0, c => some c
  | j + 1, c =>
    match contexts[c]? with
    | none => none
    | some cx =>
      match cx.outer with
      | none => none
      | some o => nthOuter contexts j o

/-- The variables of context `c` have `name` as an own property. -/
def definesName (contexts : List Context) (c : Nat) (name : String) : Bool :=
  match contexts[c]? with
  | none => false
  | some cx => cx.vars.own.owns name

/-- The value the variables of context `c` hold as own property `name`, if
any. -/
def ownValue (contexts : List Context) (c : Nat) (name : String) : Option Value :=
  match contexts[c]? with
  | none => none
  | some cx => cx.vars.own.get? name

/-- The own property names of the variables of context `c`. -/
def ownNames (contexts : List Context) (c : Nat) : List String :=
  match contexts[c]? with
  | none => []
  | some cx => cx.vars.own.keys

/-- Context `d` is the innermost context of the chain of `c` whose variables
own `name`: it is the `j`-th enclosing context for some `j`, it owns `name`,
and no context nearer to `c` does. -/
def innermost (contexts : List Context) (c : Nat) (name : String) (d : Nat) : Prop :=
  ∃ j, nthOuter contexts j c = some d ∧ definesName contexts d name = true ∧
    ∀ i, i < j → ∀ e, nthOuter contexts i c = some e → definesName contexts e name = false

/-- No context of the chain of `c` has `name` as an own property of
its variables. -/
def unbound (contexts : List Context) (c : Nat) (name : String) : Prop :=
  ∀ j d, nthOuter contexts j c = some d → definesName contexts d name = false

/-- Contexts are allocated after the context they enclose: every `outer`
index is smaller than the index of the context holding it. -/
def chained (contexts : List Context) : Prop :=
  ∀ (c : Nat) (cx : Context), contexts[c]? = some cx → ∀ o, cx.outer = some o → o < c

/-- The `RuntimeError` of `findDefinition`. -/
def notDefined (name : String) : Err :=
  .runtimeError ("Variable \x27" ++ name ++ "\x27 is not defined.")

/-- The `RuntimeError` of `define`. -/
def alreadyDefined (name : String) : Err :=
  .runtimeError ("Variable \x27" ++ name ++ "\x27 is already defined.")

/-- A host for running examples: its answers are fixed and are only consulted
for numbers that are not safe integers and for strings that are not plain
decimal or plainly non-numeric. -/
def sampleHost : Host := ⟨fun _ => "", fun _ => .nan⟩

/-- A store with a global context binding `x` and `y` and a child context
shadowing `x`. -/
def sampleStore : State :=
  { contexts := [⟨none, { own := [("x", .num (Dbl.ofInt 1)), ("y", .num (Dbl.ofInt 5))] }⟩,
                 ⟨some 0, { own := [("x", .num (Dbl.ofInt 2))] }⟩],
    objects := [], output := [] }

/-- The store in which the body of `fn` runs when it is called with `args` from
`st` and the parameters are distinct names other than `__proto__` and
`hasOwnProperty`: one more context, whose `outer` is the closure of `fn` and
which binds the parameters to the arguments. -/
def callState (st : State) (fn : VoxFunction) (args : List Value) : State :=
  { st with contexts := st.contexts ++ [⟨some fn.closure, { own := fn.parameters.zip args }⟩] }

/-- A store with a global context, a child context binding `z`, and a function
`fun (p) z` declared in the global context. -/
def callStore : State :=
  { contexts := [⟨none, { own := [("print", .native .print)] }⟩,
                 ⟨some 0, { own := [("z", .str "caller")] }⟩],
    objects := [⟨{}, .function ⟨["p"], .variableExpr "z", 0⟩⟩],
    output := [] }

/-- The program of the comment on `Context.prototype.define`:
`var a = 1; { fun foo() { print(a); } foo(); var a = 2; foo(); }`. -/
def closureProgram : List Node :=
  [ .varStmt "a" (.numberExpr (Dbl.ofInt 1)),
    .blockStmt
      [ .funStmt "foo" []
          (.blockStmt [.expressionStmt (.callExpr (.variableExpr "print") [.variableExpr "a"])]),
        .expressionStmt (.callExpr (.variableExpr "foo") []),
        .varStmt "a" (.numberExpr (Dbl.ofInt 2)),
        .expressionStmt (.callExpr (.variableExpr "foo") []) ] ]

/-- The `RuntimeError` of the arity check of `visitCallExpr`. -/
def arityMismatch : Err := .runtimeError "Arity mismatch."

/-- A body evaluator that never returns, standing for a body that is not run. -/
def neverReturns : Node → Nat → State → Res Value := fun _ _ _ => none

/-- A store holding a two-parameter function `fun (a, b) a` and a class whose
constructor takes two parameters, both declared in the global context. -/
def arityStore : State :=
  { contexts := [⟨none, { own := [("print", .native .print)] }⟩],
    objects := [⟨{}, .function ⟨["a", "b"], .variableExpr "a", 0⟩⟩,
                ⟨{}, .class (some ⟨["a", "b"], .blockStmt [], 0⟩) []⟩],
    output := [] }

/-- The constructor body `this.x = x; this.y = y`. -/
def pointBody : Node :=
  .blockStmt
    [ .expressionStmt (.assignExpr (.propertyExpr (.variableExpr "this") "x") (.variableExpr "x")),
      .expressionStmt (.assignExpr (.propertyExpr (.variableExpr "this") "y") (.variableExpr "y")) ]

/-- The store after `Point(a, b)` has run from `st`, `E` being the context the
class was declared in: the constructor context, the context of its body block,
and the new instance with its two fields. -/
def pointState (st : State) (E : Nat) (a b : Value) : State :=
  { contexts := st.contexts ++
      [⟨some E, { own := [("this", .obj st.objects.length), ("x", a), ("y", b)] }⟩] ++
      [⟨some st.contexts.length, {}⟩],
    objects := st.objects ++ [⟨{ own := [("x", a), ("y", b)] }, .object⟩],
    output := st.output }

/-- The program `class Point { Point(x, y) { this.x = x; this.y = y; } }
var p = Point(3, 4);`. -/
def pointProgram : List Node :=
  [ .classStmt "Point" [.mk "Point" ["x", "y"] pointBody],
    .varStmt "p" (.callExpr (.variableExpr "Point")
      [.numberExpr (Dbl.ofInt 3), .numberExpr (Dbl.ofInt 4)]) ]

/-- A class declaration with two methods, neither named after the class:
`class Pair { first() {} swap(p) {} }`. -/
def pairClass : List MethodDecl :=
  [.mk "first" [] (.blockStmt []), .mk "swap" ["p"] (.blockStmt [])]

/-- The integer of sign bit `s` and magnitude `m`. -/
def Dbl.signed (s : Bool) (m : Nat) : Int := if s then -(m : Int) else (m : Int)

/-- The integer `z` is exactly a double. -/
def Dbl.exactInt (z : Int) : Prop := Dbl.representable (z.natAbs * Dbl.one)

instance (z : Int) : Decidable (Dbl.exactInt z) := by
  unfold Dbl.exactInt; exact inferInstance

/-- The number literal of the integer `z`. -/
def intExpr (z : Int) : Node := .numberExpr (Dbl.ofInt z)

/-- The integer a value stands for, when it is an integer-valued number. -/
def Value.toInt : Value → Option Int
  | .num d => d.toInt
  | _ => none

/-- The statement `if (0) print("then"); else print("else");`. -/
def ifZero : Node :=
  .ifStmt (intExpr 0)
    (.expressionStmt (.callExpr (.variableExpr "print") [.stringExpr "then"]))
    (.expressionStmt (.callExpr (.variableExpr "print") [.stringExpr "else"]))

/-- The expression `"a" == "b"`, which evaluates to `false`. -/
def falseExpr : Node := .binaryExpr (.stringExpr "a") .equalEqual (.stringExpr "b")

/-- The expression `"a" == "a"`, which evaluates to `true`. -/
def trueExpr : Node := .binaryExpr (.stringExpr "a") .equalEqual (.stringExpr "a")

/-- The call `print("side effect")`. -/
def sideEffect : Node := .callExpr (.variableExpr "print") [.stringExpr "side effect"]

/-- A store whose global context binds `o` to a plain object without fields. -/
def fieldStore : State :=
  { contexts := [⟨none, { own := [("print", .native .print), ("o", .obj 0)] }⟩],
    objects := [⟨{}, .object⟩],
    output := [] }

/-- The program `class A { m() {} } var a = A(); a.m;`. -/
def methodProgram : List Node :=
  [ .classStmt "A" [.mk "m" [] (.blockStmt [])],
    .varStmt "a" (.callExpr (.variableExpr "A") []),
    .expressionStmt (.propertyExpr (.variableExpr "a") "m") ]

/-- The program `fun f() {} f()();`, which calls the value returned by a
block-bodied function. -/
def callAbsenceProgram : List Node :=
  [ .funStmt "f" [] (.blockStmt []),
    .expressionStmt (.callExpr (.callExpr (.variableExpr "f") []) []) ]

/-- The body `{ print(f); }` of a function that reads its own name. -/
def selfBody : Node :=
  .blockStmt [.expressionStmt (.callExpr (.variableExpr "print") [.variableExpr "f"])]

/-- The program `fun f() { print(f); } f();`. -/
def selfReferenceProgram : List Node :=
  [ .funStmt "f" [] selfBody,
    .expressionStmt (.callExpr (.variableExpr "f") []) ]

/-- The program `var a = ""; while (a != "xx") { var t = a; a = a + "x"; }`,
whose loop body is a block that runs twice. -/
def loopBlockProgram : List Node :=
  [ .varStmt "a" (.stringExpr ""),
    .whileStmt (.binaryExpr (.variableExpr "a") .bangEqual (.stringExpr "xx"))
      (.blockStmt
        [ .varStmt "t" (.variableExpr "a"),
          .expressionStmt (.assignExpr (.variableExpr "a")
            (.binaryExpr (.variableExpr "a") .plus (.stringExpr "x"))) ]) ]

/-- The store reached from `Interpreter` by `var hasOwnProperty = "s";`:
the variables of the global context own a property `hasOwnProperty` whose
value is not a function. -/
def shadowedStore : State :=
  { contexts :=
      [⟨none, { own := [("print", .native .print), ("hasOwnProperty", .str "s")] }⟩],
    objects := [], output := [] }

/-- The store reached from `Interpreter` by `var hasOwnProperty = print;`:
the variables of the global context own a property `hasOwnProperty` whose
value is the native `print`. -/
def printShadowedStore : State :=
  { contexts :=
      [⟨none, { own := [("print", .native .print), ("hasOwnProperty", .native .print)] }⟩],
    objects := [], output := [] }

/-- The program `var x = "v"; { var x = "w"; print(x); }`, which shadows a
variable of the global context in a block and reads it there. -/
def shadowingProgram (x : String) : List Node :=
  [ .varStmt x (.stringExpr "v"),
    .blockStmt
      [ .varStmt x (.stringExpr "w"),
        .expressionStmt (.callExpr (.variableExpr "print") [.variableExpr x]) ] ]

/-- The program `fun foo() { print(x); } var x = "late"; foo();`, which defines
`x` in the captured context after the function is declared. -/
def lateDefineProgram (x : String) : List Node :=
  [ .funStmt "foo" []
      (.blockStmt [.expressionStmt (.callExpr (.variableExpr "print") [.variableExpr x])]),
    .varStmt x (.stringExpr "late"),
    .expressionStmt (.callExpr (.variableExpr "foo") []) ]

/-- The program `var z = "early"; fun foo() { print(z); } z = "late"; foo();`,
which assigns `z` in the captured context after the function is declared. -/
def lateAssignProgram : List Node :=
  [ .varStmt "z" (.stringExpr "early"),
    .funStmt "foo" []
      (.blockStmt [.expressionStmt (.callExpr (.variableExpr "print") [.variableExpr "z"])]),
    .expressionStmt (.assignExpr (.variableExpr "z") (.stringExpr "late")),
    .expressionStmt (.callExpr (.variableExpr "foo") []) ]

/-- The assignment `o.f = "v"`. -/
def setField (f : String) : Node :=
  .assignExpr (.propertyExpr (.variableExpr "o") f) (.stringExpr "v")

/-- The property access `o.f`. -/
def getField (f : String) : Node := .propertyExpr (.variableExpr "o") f

/-- The block `{ y = "v"; }`, which assigns a variable it does not declare. -/
def assigningBlock : Node :=
  .blockStmt [.expressionStmt (.assignExpr (.variableExpr "y") (.stringExpr "v"))]

/-- The block `{ var t = "s"; fun g() {} class K {} }`. -/
def declaringBlock : Node :=
  .blockStmt
    [ .varStmt "t" (.stringExpr "s"),
      .funStmt "g" [] (.blockStmt []),
      .classStmt "K" [] ]

/-! ## Theorems -/

/-! ### Own properties -/

theorem Dict.owns_eq_isSome {α : Type} (d : Dict α) (name : String) :
    d.owns name = (d.get? name).isSome := by
  induction d with
  | nil => rfl
  | cons p rest ih =>
    obtain ⟨k, v⟩ := p
    by_cases h : k = name <;> simp [Dict.owns, Dict.get?, h, ih]

theorem Dict.get?_eq_none_of_owns {α : Type} (d : Dict α) (name : String)
    (h : d.owns name = false) : d.get? name = none := by
  rw [Dict.owns_eq_isSome] at h
  cases hg : d.get? name with
  | none => rfl
  | some v => simp [hg] at h

theorem Dict.get?_store_self {α : Type} (d : Dict α) (name : String) (value : α) :
    (d.store name value).get? name = some value := by
  induction d with
  | nil => simp [Dict.store, Dict.get?]
  | cons p rest ih =>
    obtain ⟨k, v⟩ := p
    by_cases h : k = name <;> simp [Dict.store, Dict.get?, h, ih]

theorem Dict.get?_store_other {α : Type} (d : Dict α) (name other : String) (value : α)
    (hne : other ≠ name) : (d.store name value).get? other = d.get? other := by
  induction d with
  | nil => simp [Dict.store, Dict.get?, Ne.symm hne]
  | cons p rest ih =>
    obtain ⟨k, v⟩ := p
    simp only [Dict.store]
    split
    · next hk =>
      subst hk
      simp [Dict.get?, Ne.symm hne]
    · next hk =>
      simp only [Dict.get?]
      split
      · rfl
      · exact ih

theorem Dict.owns_store_self {α : Type} (d : Dict α) (name : String) (value : α) :
    (d.store name value).owns name = true := by
  rw [Dict.owns_eq_isSome, Dict.get?_store_self]; rfl

theorem Dict.owns_store_other {α : Type} (d : Dict α) (name other : String) (value : α)
    (hne : other ≠ name) : (d.store name value).owns other = d.owns other := by
  rw [Dict.owns_eq_isSome, Dict.owns_eq_isSome, Dict.get?_store_other _ _ _ _ hne]

theorem lt_length_of_getElem? {α : Type} (l : List α) (i : Nat) (a : α)
    (h : l[i]? = some a) : i < l.length := by
  rcases Nat.lt_or_ge i l.length with hlt | hge
  · exact hlt
  · rw [List.getElem?_eq_none hge] at h
    exact absurd h (by simp)

/-! ### Dictionaries on which the inherited `hasOwnProperty` still answers -/

theorem hasOwnProperty_inherited (dict : Props) (name : String) (st : State)
    (h : dict.own.owns "hasOwnProperty" = false) :
    dict.hasOwnProperty name st = some (.ok (.bool (dict.own.owns name)), st) := by
  simp [Props.hasOwnProperty, Dict.get?_eq_none_of_owns _ _ h]

theorem hasOwnProperty_error (dict : Props) (name : String) (st s : State) (e : Err)
    (h : dict.hasOwnProperty name st = some (.error e, s)) : e = .hostTypeError ∧ s = st := by
  unfold Props.hasOwnProperty at h
  split at h <;> simp at h
  exact ⟨h.1.symm, h.2.symm⟩

theorem put_error (dict : Props) (name : String) (value : Value) (e : Err)
    (h : dict.put name value = .error e) : e = .hostTypeError := by
  unfold Props.put at h
  split at h
  · split at h <;> simp at h
  · split at h
    · simp at h
    · split at h
      · split at h
        · simpa using h.symm
        · simp at h
      · simp at h

theorem put_own_other (dict vars : Props) (name other : String) (value : Value)
    (h : dict.put name value = .ok vars) (hne : other ≠ name) :
    vars.own.get? other = dict.own.get? other := by
  unfold Props.put at h
  split at h
  · split at h <;> simp at h <;> subst h <;> rfl
  · split at h
    · simp at h
      subst h
      exact Dict.get?_store_other _ _ _ _ hne
    · split at h
      · split at h
        · simp at h
        · simp at h
          subst h
          exact Dict.get?_store_other _ _ _ _ hne
      · simp at h
        subst h
        exact Dict.get?_store_other _ _ _ _ hne

theorem put_fresh (dict : Props) (name : String) (value : Value)
    (hname : name ≠ "__proto__") (hproto : dict.proto = none) :
    dict.put name value = .ok { dict with own := dict.own.store name value } := by
  unfold Props.put
  simp [hname, hproto]

/-! ### `define` -/

theorem define_of_bound (st : State) (c : Nat) (name : String) (value : Value)
    (hplain : definesName st.contexts c "hasOwnProperty" = false)
    (h : definesName st.contexts c name = true) :
    Context.define c name value st = some (.error (alreadyDefined name), st) := by
  unfold definesName at h hplain
  unfold Context.define
  cases hcx : st.contexts[c]? with
  | none => simp [hcx] at h
  | some cx =>
    simp only [hcx] at h hplain
    simp [hasOwnProperty_inherited _ _ _ hplain, h, Res.andThen, truthy, alreadyDefined]

theorem define_of_fresh (st : State) (c : Nat) (cx : Context) (name : String) (value : Value)
    (hcx : st.contexts[c]? = some cx) (hplain : cx.vars.own.owns "hasOwnProperty" = false)
    (hproto : cx.vars.proto = none) (hname : name ≠ "__proto__")
    (h : cx.vars.own.owns name = false) :
    Context.define c name value st = some (.ok (),
      { st with
        contexts := st.contexts.set c
          { cx with vars := { cx.vars with own := cx.vars.own.store name value } } }) := by
  unfold Context.define
  simp [hcx, hasOwnProperty_inherited _ _ _ hplain, h, Res.andThen, truthy,
    put_fresh _ _ _ hname hproto]

theorem define_error (context : Nat) (name : String) (value : Value) (st s : State) (e : Err)
    (h : Context.define context name value st = some (.error e, s)) :
    e = alreadyDefined name ∨ e = .hostTypeError := by
  unfold Context.define at h
  cases hcx : st.contexts[context]? with
  | none => simp [hcx] at h
  | some cx =>
    simp only [hcx] at h
    cases hh : cx.vars.hasOwnProperty name st with
    | none => simp [hh, Res.andThen] at h
    | some r =>
      obtain ⟨x, s1⟩ := r
      cases x with
      | error e1 =>
        simp only [hh, Res.andThen, Option.some.injEq, Prod.mk.injEq, Except.error.injEq] at h
        exact Or.inr (h.1 ▸ (hasOwnProperty_error _ _ _ _ _ hh).1)
      | ok found =>
        simp only [hh, Res.andThen] at h
        split at h
        · simp only [Option.some.injEq, Prod.mk.injEq, Except.error.injEq] at h
          exact Or.inl h.1.symm
        · cases hp : cx.vars.put name value with
          | error e1 =>
            simp only [hp, Option.some.injEq, Prod.mk.injEq, Except.error.injEq] at h
            exact Or.inr (h.1 ▸ put_error _ _ _ _ hp)
          | ok vars => simp [hp] at h

/-! ### What a `define` that returns has changed -/

theorem String.eq_empty_of_toList (s : String) (h : s.toList = []) : s = "" := by
  cases s with
  | mk data =>
    simp only [String.toList] at h
    subst h
    rfl

theorem hasOwnProperty_ok (dict : Props) (name : String) (st s : State) (found : Value)
    (h : dict.hasOwnProperty name st = some (.ok found, s)) :
    s.contexts = st.contexts ∧ s.objects = st.objects ∧
      (truthy found = false → dict.own.owns name = true → name = "") := by
  unfold Props.hasOwnProperty at h
  split at h
  · simp only [Option.some.injEq, Prod.mk.injEq, Except.ok.injEq] at h
    obtain ⟨hf, hs⟩ := h
    subst hf hs
    refine ⟨rfl, rfl, ?_⟩
    intro ht ho
    simp [truthy, ho] at ht
  · simp only [Option.some.injEq, Prod.mk.injEq, Except.ok.injEq] at h
    obtain ⟨hf, hs⟩ := h
    subst hf hs
    refine ⟨rfl, rfl, ?_⟩
    intro ht _
    apply String.eq_empty_of_toList
    simpa [truthy] using ht
  · simp at h

theorem define_frame (c : Nat) (name : String) (value : Value) (st st1 : State)
    (h : Context.define c name value st = some (.ok (), st1)) :
    st1.objects = st.objects ∧ st1.contexts.length = st.contexts.length ∧
      (∀ i, i ≠ c → st1.contexts[i]? = st.contexts[i]?) ∧
      (st1.contexts[c]?).map Context.outer = (st.contexts[c]?).map Context.outer ∧
      (∀ k, k ≠ name → ownValue st1.contexts c k = ownValue st.contexts c k) ∧
      (∀ k w, k ≠ "" → ownValue st.contexts c k = some w → ownValue st1.contexts c k = some w) := by
  unfold Context.define at h
  cases hcx : st.contexts[c]? with
  | none => simp [hcx] at h
  | some cx =>
    have hc : c < st.contexts.length := lt_length_of_getElem? _ _ _ hcx
    simp only [hcx] at h
    cases hh : cx.vars.hasOwnProperty name st with
    | none => simp [hh, Res.andThen] at h
    | some r =>
      obtain ⟨x, s1⟩ := r
      cases x with
      | error e1 => simp [hh, Res.andThen] at h
      | ok found =>
        obtain ⟨hctx, hobjs, hempty⟩ := hasOwnProperty_ok _ _ _ _ _ hh
        simp only [hh, Res.andThen] at h
        split at h
        · simp at h
        · next hfalse =>
          have hfalse : truthy found = false := by simpa using hfalse
          cases hp : cx.vars.put name value with
          | error e1 => simp [hp] at h
          | ok vars =>
            simp only [hp, Option.some.injEq, Prod.mk.injEq, true_and] at h
            subst h
            have hother : ∀ k, k ≠ name →
                ownValue (s1.contexts.set c { cx with vars := vars }) c k =
                  ownValue st.contexts c k := by
              intro k hk
              simp [ownValue, hctx, List.getElem?_set_self hc, hcx, put_own_other _ _ _ _ _ hp hk]
            refine ⟨hobjs, by simp [hctx], ?_, ?_, hother, ?_⟩
            · intro i hi
              simp [hctx, List.getElem?_set_ne (Ne.symm hi)]
            · simp [hctx, List.getElem?_set_self hc, hcx]
            · intro k w hk hw
              by_cases hkn : k = name
              · subst hkn
                have hown : cx.vars.own.owns k = true := by
                  rw [Dict.owns_eq_isSome]
                  simp only [ownValue, hcx] at hw
                  simp [hw]
                exact absurd (hempty hfalse hown) hk
              · rw [hother k hkn]
                exact hw

theorem defineParameters_frame (parameters : List String) :
    ∀ (args : List Value) (c : Nat) (st st2 : State),
      defineParameters parameters args c st = some (.ok (), st2) →
      st2.objects = st.objects ∧ st2.contexts.length = st.contexts.length ∧
        (∀ i, i ≠ c → st2.contexts[i]? = st.contexts[i]?) ∧
        (st2.contexts[c]?).map Context.outer = (st.contexts[c]?).map Context.outer ∧
        (∀ k, k ∉ parameters → ownValue st2.contexts c k = ownValue st.contexts c k) ∧
        (∀ k w, k ≠ "" → ownValue st.contexts c k = some w →
          ownValue st2.contexts c k = some w) := by
  induction parameters with
  | nil =>
    intro args c st st2 h
    simp only [defineParameters, Option.some.injEq, Prod.mk.injEq, true_and] at h
    subst h
    exact ⟨rfl, rfl, fun _ _ => rfl, rfl, fun _ _ => rfl, fun _ _ _ hw => hw⟩
  | cons p ps ih =>
    intro args c st st2 h
    cases args with
    | nil =>
      simp only [defineParameters, Option.some.injEq, Prod.mk.injEq, true_and] at h
      subst h
      exact ⟨rfl, rfl, fun _ _ => rfl, rfl, fun _ _ => rfl, fun _ _ _ hw => hw⟩
    | cons a as =>
      simp only [defineParameters] at h
      cases hd : Context.define c p a st with
      | none => simp [hd, Res.andThen] at h
      | some r =>
        obtain ⟨x, s1⟩ := r
        cases x with
        | error e1 => simp [hd, Res.andThen] at h
        | ok u =>
          simp only [hd, Res.andThen] at h
          obtain ⟨h1, h2, h3, h4, h5, h6⟩ := define_frame c p a st s1 hd
          obtain ⟨g1, g2, g3, g4, g5, g6⟩ := ih as c s1 st2 h
          refine ⟨g1.trans h1, g2.trans h2, fun i hi => (g3 i hi).trans (h3 i hi), g4.trans h4,
            ?_, fun k w hk hw => g6 k w hk (h6 k w hk hw)⟩
          intro k hk
          have hkp : k ≠ p := fun e => hk (by simp [e])
          have hkps : k ∉ ps := fun e => hk (by simp [e])
          exact (g5 k hkps).trans (h5 k hkp)

/-! ### The scope chain -/

theorem definesName_eq_isSome (contexts : List Context) (c : Nat) (name : String) :
    definesName contexts c name = (ownValue contexts c name).isSome := by
  unfold definesName ownValue
  cases contexts[c]? with
  | none => rfl
  | some cx => exact Dict.owns_eq_isSome _ _

theorem findDefinitionLoop_unbound (st : State) (name : String) (hch : chained st.contexts) :
    ∀ c fuel, c < fuel → c < st.contexts.length → unbound st.contexts c name →
      unbound st.contexts c "hasOwnProperty" →
      findDefinitionLoop name fuel (some c) st = some (.error (notDefined name), st) := by
  intro c
  induction c using Nat.strong_induction_on with
  | _ c ih =>
    intro fuel hfuel hc hunb hplain
    cases fuel with
    | zero => exact absurd hfuel (Nat.not_lt_zero c)
    | succ fuel =>
      obtain ⟨cx, hcx⟩ : ∃ cx, st.contexts[c]? = some cx :=
        ⟨st.contexts[c], List.getElem?_eq_getElem hc⟩
      have hhas : cx.vars.own.owns name = false := by simpa [definesName, hcx] using hunb 0 c rfl
      have hpl : cx.vars.own.owns "hasOwnProperty" = false := by
        simpa [definesName, hcx] using hplain 0 c rfl
      cases ho : cx.outer with
      | none =>
        cases fuel <;>
          simp [findDefinitionLoop, hcx, hasOwnProperty_inherited _ _ _ hpl, hhas, ho, notDefined,
            Res.andThen, truthy]
      | some o =>
        have hlt : o < c := hch c cx hcx o ho
        have hrec := ih o hlt fuel (by omega) (Nat.lt_trans hlt hc)
          (fun j d hj => hunb (j + 1) d (by simp [nthOuter, hcx, ho, hj]))
          (fun j d hj => hplain (j + 1) d (by simp [nthOuter, hcx, ho, hj]))
        simp [findDefinitionLoop, hcx, hasOwnProperty_inherited _ _ _ hpl, hhas, ho, hrec,
          Res.andThen, truthy]

theorem lookUp_of_unbound (st : State) (c : Nat) (name : String)
    (hch : chained st.contexts) (hc : c < st.contexts.length)
    (hun : unbound st.contexts c name) (hplain : unbound st.contexts c "hasOwnProperty") :
    Context.lookUp c name st = some (.error (notDefined name), st) := by
  unfold Context.lookUp Context.findDefinition
  rw [findDefinitionLoop_unbound st name hch c _ hc hc hun hplain]
  rfl

theorem lookUp_own (st : State) (c : Nat) (name : String) (v : Value)
    (hplain : definesName st.contexts c "hasOwnProperty" = false)
    (hv : ownValue st.contexts c name = some v) :
    Context.lookUp c name st = some (.ok v, st) := by
  unfold ownValue at hv
  unfold definesName at hplain
  cases hcx : st.contexts[c]? with
  | none => simp [hcx] at hv
  | some cx =>
    simp only [hcx] at hv hplain
    have hlen : c < st.contexts.length := lt_length_of_getElem? _ _ _ hcx
    have hhas : cx.vars.own.owns name = true := by rw [Dict.owns_eq_isSome, hv]; rfl
    unfold Context.lookUp Context.findDefinition
    cases hn : st.contexts.length with
    | zero => omega
    | succ n =>
      simp [findDefinitionLoop, hcx, hasOwnProperty_inherited _ _ _ hplain, hhas, Res.andThen,
        truthy, Props.get, hv, readResult]

theorem lookUp_outer_own (st : State) (c o : Nat) (name : String) (v : Value)
    (hout : (st.contexts[c]?).map Context.outer = some (some o))
    (hplain : definesName st.contexts c "hasOwnProperty" = false)
    (hmiss : definesName st.contexts c name = false)
    (hplain2 : definesName st.contexts o "hasOwnProperty" = false)
    (hv : ownValue st.contexts o name = some v) :
    Context.lookUp c name st = some (.ok v, st) := by
  cases hcx : st.contexts[c]? with
  | none => simp [hcx] at hout
  | some cx =>
    simp only [hcx, Option.map_some', Option.some.injEq] at hout
    have hc : c < st.contexts.length := lt_length_of_getElem? _ _ _ hcx
    unfold ownValue at hv
    cases hco : st.contexts[o]? with
    | none => simp [hco] at hv
    | some cy =>
      simp only [hco] at hv
      have ho : o < st.contexts.length := lt_length_of_getElem? _ _ _ hco
      have hhas2 : cy.vars.own.owns name = true := by rw [Dict.owns_eq_isSome, hv]; rfl
      have hne : c ≠ o := by
        intro h
        subst h
        rw [hcx] at hco
        simp only [Option.some.injEq] at hco
        subst hco
        simp [definesName, hcx, hhas2] at hmiss
      have hp1 : cx.vars.own.owns "hasOwnProperty" = false := by
        simpa [definesName, hcx] using hplain
      have hm1 : cx.vars.own.owns name = false := by simpa [definesName, hcx] using hmiss
      have hp2 : cy.vars.own.owns "hasOwnProperty" = false := by
        simpa [definesName, hco] using hplain2
      obtain ⟨n, hn⟩ : ∃ n, st.contexts.length = n + 2 := ⟨st.contexts.length - 2, by omega⟩
      simp [Context.lookUp, Context.findDefinition, hn, findDefinitionLoop, hcx,
        hasOwnProperty_inherited _ _ _ hp1, hm1, hout, hco, hasOwnProperty_inherited _ _ _ hp2,
        hhas2, Res.andThen, truthy, Props.get, hv, readResult]

theorem nthOuter_le (contexts : List Context) (hch : chained contexts) :
    ∀ j c d, nthOuter contexts j c = some d → d ≤ c := by
  intro j
  induction j with
  | zero =>
    intro c d h
    simp only [nthOuter, Option.some.injEq] at h
    omega
  | succ j ih =>
    intro c d h
    cases hcx : contexts[c]? with
    | none => simp [nthOuter, hcx] at h
    | some cx =>
      cases ho : cx.outer with
      | none => simp [nthOuter, hcx, ho] at h
      | some o =>
        simp only [nthOuter, hcx, ho] at h
        have := ih o d h
        have := hch c cx hcx o ho
        omega

theorem nthOuter_congr (contexts other : List Context) (hch : chained contexts) :
    ∀ j c, (∀ i, i ≤ c → other[i]? = contexts[i]?) →
      nthOuter other j c = nthOuter contexts j c := by
  intro j
  induction j with
  | zero => intro c _; rfl
  | succ j ih =>
    intro c hagree
    simp only [nthOuter, hagree c (Nat.le_refl c)]
    cases hcx : contexts[c]? with
    | none => rfl
    | some cx =>
      cases ho : cx.outer with
      | none => simp [ho]
      | some o =>
        have hlt := hch c cx hcx o ho
        simp only [ho]
        exact ih o (fun i hi => hagree i (by omega))

theorem unbound_congr (contexts other : List Context) (hch : chained contexts) (c : Nat)
    (name : String) (hagree : ∀ i, i ≤ c → other[i]? = contexts[i]?)
    (hun : unbound contexts c name) : unbound other c name := by
  intro j d hj
  rw [nthOuter_congr contexts other hch j c hagree] at hj
  have hle := nthOuter_le contexts hch j c d hj
  have := hun j d hj
  simpa [definesName, hagree d hle] using this

/-- In a store that extends `st` by a context whose `outer` is `closure`, a
name that neither the new context nor the chain of `closure` owns is owned
nowhere on the chain of the new context. -/
theorem unbound_call_context (st st2 : State) (closure : Nat) (name : String)
    (hch : chained st.contexts) (hcl : closure < st.contexts.length)
    (hsame : ∀ i, i < st.contexts.length → st2.contexts[i]? = st.contexts[i]?)
    (hout : (st2.contexts[st.contexts.length]?).map Context.outer = some (some closure))
    (hown : definesName st2.contexts st.contexts.length name = false)
    (hun : unbound st.contexts closure name) :
    unbound st2.contexts st.contexts.length name := by
  have hagree : ∀ i, i ≤ closure → st2.contexts[i]? = st.contexts[i]? :=
    fun i hi => hsame i (by omega)
  have hun2 := unbound_congr st.contexts st2.contexts hch closure name hagree hun
  intro j d hj
  cases j with
  | zero =>
    simp only [nthOuter, Option.some.injEq] at hj
    subst hj
    exact hown
  | succ j =>
    cases hcx : st2.contexts[st.contexts.length]? with
    | none => simp [hcx] at hout
    | some cx =>
      simp only [hcx, Option.map_some', Option.some.injEq] at hout
      simp only [nthOuter, hcx, hout] at hj
      exact hun2 j d hj

theorem chained_call_context (st st2 : State) (closure : Nat)
    (hch : chained st.contexts) (hcl : closure < st.contexts.length)
    (hlen : st2.contexts.length = st.contexts.length + 1)
    (hsame : ∀ i, i < st.contexts.length → st2.contexts[i]? = st.contexts[i]?)
    (hout : (st2.contexts[st.contexts.length]?).map Context.outer = some (some closure)) :
    chained st2.contexts := by
  intro c cy hcy o ho
  have hc : c < st2.contexts.length := lt_length_of_getElem? _ _ _ hcy
  rcases Nat.lt_or_ge c st.contexts.length with hlt | hge
  · rw [hsame c hlt] at hcy
    exact hch c cy hcy o ho
  · have : c = st.contexts.length := by omega
    subst this
    simp only [hcy, Option.map_some', Option.some.injEq] at hout
    rw [hout] at ho
    simp only [Option.some.injEq] at ho
    omega

theorem unbound_of_no_outer (contexts : List Context) (c : Nat) (cx : Context) (name : String)
    (hcx : contexts[c]? = some cx) (hout : cx.outer = none)
    (hown : cx.vars.own.owns name = false) : unbound contexts c name := by
  intro j d hj
  cases j with
  | zero =>
    simp only [nthOuter, Option.some.injEq] at hj
    subst hj
    simp [definesName, hcx, hown]
  | succ j => simp [nthOuter, hcx, hout] at hj

/-! ### Lookups see the chain of their context only -/

theorem hasOwnProperty_congr (dict : Props) (name : String) (st st2 : State) :
    match dict.hasOwnProperty name st with
    | none => dict.hasOwnProperty name st2 = none
    | some (r, s) => ∃ s2, dict.hasOwnProperty name st2 = some (r, s2) ∧
        s.contexts = st.contexts ∧ s2.contexts = st2.contexts ∧
        s.objects = st.objects ∧ s2.objects = st2.objects := by
  unfold Props.hasOwnProperty
  cases dict.own.get? "hasOwnProperty" with
  | none => exact ⟨_, rfl, rfl, rfl, rfl, rfl⟩
  | some v =>
    cases v with
    | native f =>
      cases f
      exact ⟨_, rfl, rfl, rfl, rfl, rfl⟩
    | undefined => exact ⟨_, rfl, rfl, rfl, rfl, rfl⟩
    | bool b => exact ⟨_, rfl, rfl, rfl, rfl, rfl⟩
    | num d => exact ⟨_, rfl, rfl, rfl, rfl, rfl⟩
    | str t => exact ⟨_, rfl, rfl, rfl, rfl, rfl⟩
    | obj ref => exact ⟨_, rfl, rfl, rfl, rfl, rfl⟩

theorem findDefinitionLoop_congr (name : String) :
    ∀ (fuel c : Nat) (st st2 : State),
      (∀ j d, nthOuter st.contexts j c = some d → st2.contexts[d]? = st.contexts[d]?) →
      match findDefinitionLoop name fuel (some c) st with
      | none => findDefinitionLoop name fuel (some c) st2 = none
      | some (r, s) => ∃ s2, findDefinitionLoop name fuel (some c) st2 = some (r, s2) ∧
          s.contexts = st.contexts ∧ s2.contexts = st2.contexts ∧
          s.objects = st.objects ∧ s2.objects = st2.objects ∧
          ∀ d, r = .ok d → ∃ j, nthOuter st.contexts j c = some d := by
  intro fuel
  induction fuel with
  | zero => intro c st st2 _; simp [findDefinitionLoop]
  | succ fuel ih =>
    intro c st st2 hagree
    have hc : st2.contexts[c]? = st.contexts[c]? := hagree 0 c rfl
    simp only [findDefinitionLoop, hc]
    cases hcx : st.contexts[c]? with
    | none => simp
    | some cx =>
      simp only []
      have hh := hasOwnProperty_congr cx.vars name st st2
      cases h1 : cx.vars.hasOwnProperty name st with
      | none =>
        simp only [h1] at hh
        simp [hh, Res.andThen]
      | some p =>
        obtain ⟨r, s⟩ := p
        simp only [h1] at hh
        obtain ⟨s2, h2, e1, e2, e3, e4⟩ := hh
        cases r with
        | error e =>
          simp only [h2, Res.andThen]
          exact ⟨s2, rfl, e1, e2, e3, e4, fun d hd => by cases hd⟩
        | ok found =>
          simp only [h2, Res.andThen]
          by_cases ht : truthy found = true
          · simp only [ht, if_true]
            exact ⟨s2, rfl, e1, e2, e3, e4, fun d hd => by
              simp only [Except.ok.injEq] at hd
              exact ⟨0, by simp [nthOuter, hd]⟩⟩
          · simp only [ht, if_false]
            cases ho : cx.outer with
            | none =>
              simp only [findDefinitionLoop]
              exact ⟨s2, rfl, e1, e2, e3, e4, fun d hd => by cases hd⟩
            | some o =>
              have hagree2 : ∀ j d, nthOuter s.contexts j o = some d →
                  s2.contexts[d]? = s.contexts[d]? := by
                intro j d hj
                rw [e1] at hj ⊢
                rw [e2]
                exact hagree (j + 1) d (by simp [nthOuter, hcx, ho, hj])
              have hrec := ih o s s2 hagree2
              cases h3 : findDefinitionLoop name fuel (some o) s with
              | none =>
                simp only [h3] at hrec
                simp [hrec]
              | some q =>
                obtain ⟨r3, s3⟩ := q
                simp only [h3] at hrec
                obtain ⟨s4, h4, f1, f2, f3, f4, f5⟩ := hrec
                refine ⟨s4, h4, f1.trans e1, f2.trans e2, f3.trans e3, f4.trans e4, ?_⟩
                intro d hd
                obtain ⟨j, hj⟩ := f5 d hd
                rw [e1] at hj
                exact ⟨j + 1, by simp [nthOuter, hcx, ho, hj]⟩

/-- The outcome of `lookUp(name)` from context `c`, the value returned or the
error thrown, is the same in any two stores that hold the same objects and
agree on the contexts of the chain of `c`: contexts outside that chain are
not consulted. -/
theorem lookUp_sees_chain_only (st st2 : State) (c : Nat) (name : String)
    (hlen : st2.contexts.length = st.contexts.length) (hobjs : st2.objects = st.objects)
    (hagree : ∀ j d, nthOuter st.contexts j c = some d → st2.contexts[d]? = st.contexts[d]?) :
    (Context.lookUp c name st2).map Prod.fst = (Context.lookUp c name st).map Prod.fst := by
  unfold Context.lookUp Context.findDefinition
  rw [hlen]
  have h := findDefinitionLoop_congr name st.contexts.length c st st2 hagree
  cases h1 : findDefinitionLoop name st.contexts.length (some c) st with
  | none =>
    simp only [h1] at h
    simp [h, Res.andThen]
  | some p =>
    obtain ⟨r, s⟩ := p
    simp only [h1] at h
    obtain ⟨s2, h2, e1, e2, e3, e4, e5⟩ := h
    cases r with
    | error e => simp [h2, Res.andThen]
    | ok d =>
      obtain ⟨j, hj⟩ := e5 d rfl
      have hd : s2.contexts[d]? = s.contexts[d]? := by
        rw [e1, e2]
        exact hagree j d hj
      simp only [h2, Res.andThen, hd, e3, e4, hobjs]
      cases s.contexts[d]? with
      | none => rfl
      | some cx =>
        simp only []
        cases cx.vars.get st.objects name with
        | none => rfl
        | some x =>
          cases x with
          | error e => rfl
          | ok v => rfl

/-! ### The contract of `Context` away from the host names

On a chain none of whose contexts binds `hasOwnProperty`, and for a name other
than `__proto__`, the three methods of `Context` behave as a scope chain
should. -/

theorem Dict.keys_store_of_owns {α : Type} (d : Dict α) (name : String) (value : α)
    (h : d.owns name = true) : (d.store name value).keys = d.keys := by
  induction d with
  | nil => simp [Dict.owns] at h
  | cons p rest ih =>
    obtain ⟨k, v⟩ := p
    simp only [Dict.store]
    split
    · simp [Dict.keys]
    · next hk =>
      simp only [Dict.owns, hk, if_false] at h
      have := ih h
      simp only [Dict.keys] at this
      simp [Dict.keys, this]

theorem innermost_or_unbound (contexts : List Context) (name : String)
    (hch : chained contexts) :
    ∀ c, c < contexts.length → (∃ d, innermost contexts c name d) ∨ unbound contexts c name := by
  intro c
  induction c using Nat.strong_induction_on with
  | _ c ih =>
    intro hc
    by_cases hdef : definesName contexts c name = true
    · exact Or.inl ⟨c, 0, rfl, hdef, fun i hi => absurd hi (Nat.not_lt_zero i)⟩
    · have hdef : definesName contexts c name = false := by simpa using hdef
      obtain ⟨cx, hcx⟩ : ∃ cx, contexts[c]? = some cx := ⟨contexts[c], List.getElem?_eq_getElem hc⟩
      cases ho : cx.outer with
      | none =>
        refine Or.inr ?_
        intro j d hj
        cases j with
        | zero => simp only [nthOuter, Option.some.injEq] at hj; subst hj; exact hdef
        | succ j => simp [nthOuter, hcx, ho] at hj
      | some o =>
        have hlt : o < c := hch c cx hcx o ho
        rcases ih o hlt (Nat.lt_trans hlt hc) with ⟨d, j, hj, hd, hmin⟩ | hunb
        · refine Or.inl ⟨d, j + 1, ?_, hd, ?_⟩
          · simp [nthOuter, hcx, ho, hj]
          · intro i hi e he
            cases i with
            | zero => simp only [nthOuter, Option.some.injEq] at he; subst he; exact hdef
            | succ i =>
              simp only [nthOuter, hcx, ho] at he
              exact hmin i (Nat.lt_of_succ_lt_succ hi) e he
        · refine Or.inr ?_
          intro j d hj
          cases j with
          | zero => simp only [nthOuter, Option.some.injEq] at hj; subst hj; exact hdef
          | succ j =>
            simp only [nthOuter, hcx, ho] at hj
            exact hunb j d hj

theorem findDefinitionLoop_innermost (st : State) (name : String) (hch : chained st.contexts) :
    ∀ c fuel d, c < fuel → innermost st.contexts c name d →
      unbound st.contexts c "hasOwnProperty" →
      findDefinitionLoop name fuel (some c) st = some (.ok d, st) := by
  intro c
  induction c using Nat.strong_induction_on with
  | _ c ih =>
    intro fuel d hfuel hin hplain
    obtain ⟨j, hj, hd, hmin⟩ := hin
    cases fuel with
    | zero => exact absurd hfuel (Nat.not_lt_zero c)
    | succ fuel =>
      cases hcx : st.contexts[c]? with
      | none =>
        cases j with
        | zero =>
          simp only [nthOuter, Option.some.injEq] at hj
          subst hj
          simp [definesName, hcx] at hd
        | succ j => simp [nthOuter, hcx] at hj
      | some cx =>
        have hpl : cx.vars.own.owns "hasOwnProperty" = false := by
          simpa [definesName, hcx] using hplain 0 c rfl
        cases j with
        | zero =>
          simp only [nthOuter, Option.some.injEq] at hj
          subst hj
          have hown : cx.vars.own.owns name = true := by simpa [definesName, hcx] using hd
          simp [findDefinitionLoop, hcx, hasOwnProperty_inherited _ _ _ hpl, hown, Res.andThen,
            truthy]
        | succ j =>
          have h0 : definesName st.contexts c name = false := hmin 0 (Nat.succ_pos j) c rfl
          cases ho : cx.outer with
          | none => simp [nthOuter, hcx, ho] at hj
          | some o =>
            simp only [nthOuter, hcx, ho] at hj
            have hlt : o < c := hch c cx hcx o ho
            have hhas : cx.vars.own.owns name = false := by simpa [definesName, hcx] using h0
            have hrec := ih o hlt fuel d (by omega) ⟨j, hj, hd, fun i hi e he =>
              hmin (i + 1) (Nat.succ_lt_succ hi) e (by simp [nthOuter, hcx, ho, he])⟩
              (fun i e he => hplain (i + 1) e (by simp [nthOuter, hcx, ho, he]))
            simp [findDefinitionLoop, hcx, hasOwnProperty_inherited _ _ _ hpl, hhas, ho, hrec,
              Res.andThen, truthy]

theorem lookUp_of_innermost (st : State) (c : Nat) (name : String) (d : Nat) (v : Value)
    (hch : chained st.contexts) (hc : c < st.contexts.length)
    (hplain : unbound st.contexts c "hasOwnProperty")
    (hin : innermost st.contexts c name d) (hv : ownValue st.contexts d name = some v) :
    Context.lookUp c name st = some (.ok v, st) := by
  unfold Context.lookUp Context.findDefinition
  rw [findDefinitionLoop_innermost st name hch c _ d hc hin hplain]
  unfold ownValue at hv
  cases hcx : st.contexts[d]? with
  | none => simp [hcx] at hv
  | some cx =>
    simp only [hcx] at hv
    simp [Res.andThen, hcx, Props.get, hv, readResult]

/-- Away from the host names `lookUp` keeps its contract: from any
context of a well-chained store whose chain does not bind `hasOwnProperty`,
`lookUp(name)` returns the value bound to `name` in the innermost context of
the chain that owns it, fails with "Variable 'name' is not defined." exactly
when no context of the chain owns it, and always does one of the two. -/
theorem lookUp_contract (st : State) (this : Nat) (name : String)
    (hch : chained st.contexts) (hthis : this < st.contexts.length)
    (hplain : unbound st.contexts this "hasOwnProperty") :
    (∀ d v, innermost st.contexts this name d → ownValue st.contexts d name = some v →
        Context.lookUp this name st = some (.ok v, st)) ∧
    (Context.lookUp this name st = some (.error (notDefined name), st) ↔
        unbound st.contexts this name) ∧
    ((∃ d v, innermost st.contexts this name d ∧ ownValue st.contexts d name = some v ∧
        Context.lookUp this name st = some (.ok v, st)) ∨
      Context.lookUp this name st = some (.error (notDefined name), st)) := by
  have key : (∃ d v, innermost st.contexts this name d ∧ ownValue st.contexts d name = some v ∧
        Context.lookUp this name st = some (.ok v, st)) ∨
      (unbound st.contexts this name ∧
        Context.lookUp this name st = some (.error (notDefined name), st)) := by
    rcases innermost_or_unbound st.contexts name hch this hthis with ⟨d, hin⟩ | hun
    · have hd := hin.choose_spec.2.1
      rw [definesName_eq_isSome, Option.isSome_iff_exists] at hd
      obtain ⟨v, hv⟩ := hd
      exact Or.inl ⟨d, v, hin, hv, lookUp_of_innermost st this name d v hch hthis hplain hin hv⟩
    · exact Or.inr ⟨hun, lookUp_of_unbound st this name hch hthis hun hplain⟩
  refine ⟨fun d v hin hv => lookUp_of_innermost st this name d v hch hthis hplain hin hv, ?_, ?_⟩
  · constructor
    · intro herr
      rcases key with ⟨d, v, _, _, hok⟩ | ⟨hun, _⟩
      · rw [hok] at herr
        simp at herr
      · exact hun
    · exact fun hun => lookUp_of_unbound st this name hch hthis hun hplain
  · rcases key with h | ⟨_, herr⟩
    · exact Or.inl h
    · exact Or.inr herr

/-- Away from the host names `define` keeps its contract: on a context
whose variables neither own `hasOwnProperty` nor have had their prototype
replaced, `define(name, value)` for a name other than `__proto__` fails
exactly when the context itself already owns `name`, then with the
"already defined" error and an unchanged store, whatever its ancestors bind; and a
successful `define` of a name other than `hasOwnProperty` is read back by
`lookUp`. -/
theorem define_contract (st : State) (E : Nat) (cx : Context) (name : String) (value : Value)
    (hcx : st.contexts[E]? = some cx) (hplain : cx.vars.own.owns "hasOwnProperty" = false)
    (hproto : cx.vars.proto = none) (hname : name ≠ "__proto__") :
    ((∃ e s, Context.define E name value st = some (.error e, s)) ↔
        cx.vars.own.owns name = true) ∧
    (cx.vars.own.owns name = true →
        Context.define E name value st = some (.error (alreadyDefined name), st)) ∧
    (cx.vars.own.owns name = false → name ≠ "hasOwnProperty" →
        ∃ st1, Context.define E name value st = some (.ok (), st1) ∧
          Context.lookUp E name st1 = some (.ok value, st1)) := by
  have hE : E < st.contexts.length := lt_length_of_getElem? _ _ _ hcx
  have hbound : cx.vars.own.owns name = true →
      Context.define E name value st = some (.error (alreadyDefined name), st) := fun h =>
    define_of_bound st E name value (by simp [definesName, hcx, hplain])
      (by simp [definesName, hcx, h])
  refine ⟨⟨?_, fun h => ⟨_, _, hbound h⟩⟩, hbound, ?_⟩
  · rintro ⟨e, s, h⟩
    by_contra hne
    have hfalse : cx.vars.own.owns name = false := by simpa using hne
    rw [define_of_fresh st E cx name value hcx hplain hproto hname hfalse] at h
    simp at h
  · intro hfresh hhop
    refine ⟨_, define_of_fresh st E cx name value hcx hplain hproto hname hfresh, ?_⟩
    apply lookUp_own
    · simp [definesName, List.getElem?_set_self, hE,
        Dict.owns_store_other _ _ _ _ (Ne.symm hhop), hplain]
    · simp [ownValue, List.getElem?_set_self, hE, Dict.get?_store_self]

/-- Away from the host names `assign` keeps its contract: from any
context of a well-chained store whose chain does not bind `hasOwnProperty`,
`assign(name, value)` for a name other than `__proto__` overwrites the
binding of `name` in the innermost context of the chain that owns it and
nothing else (every other binding keeps its value, every context owns the same
names and has the same `outer`, objects and output are untouched), and fails
with "not defined", leaving the store unchanged, when no context of the chain
owns `name`.  One of the two always happens. -/
theorem assign_contract (st : State) (this : Nat) (name : String) (value : Value)
    (hch : chained st.contexts) (hthis : this < st.contexts.length)
    (hplain : unbound st.contexts this "hasOwnProperty") (hname : name ≠ "__proto__") :
    (∀ d, innermost st.contexts this name d →
      ∃ st1, Context.assign this name value st = some (.ok (), st1) ∧
        ownValue st1.contexts d name = some value ∧
        (∀ e other, (e ≠ d ∨ other ≠ name) →
          ownValue st1.contexts e other = ownValue st.contexts e other) ∧
        (∀ e, ownNames st1.contexts e = ownNames st.contexts e) ∧
        (∀ e : Nat, (st1.contexts[e]?).map Context.outer = (st.contexts[e]?).map Context.outer) ∧
        st1.contexts.length = st.contexts.length ∧
        st1.objects = st.objects ∧ st1.output = st.output) ∧
    (unbound st.contexts this name →
      Context.assign this name value st = some (.error (notDefined name), st)) ∧
    ((∃ d, innermost st.contexts this name d) ∨ unbound st.contexts this name) := by
  refine ⟨?_, ?_, innermost_or_unbound st.contexts name hch this hthis⟩
  · intro d hin
    have hdef : definesName st.contexts d name = true := hin.choose_spec.2.1
    unfold definesName at hdef
    cases hcx : st.contexts[d]? with
    | none => simp [hcx] at hdef
    | some cx =>
      simp only [hcx] at hdef
      have hd : d < st.contexts.length := lt_length_of_getElem? _ _ _ hcx
      have hass : Context.assign this name value st = some (.ok (),
          { st with
            contexts := st.contexts.set d
              { cx with vars := { cx.vars with own := cx.vars.own.store name value } } }) := by
        unfold Context.assign Context.findDefinition
        rw [findDefinitionLoop_innermost st name hch this _ d hthis hin hplain]
        simp [Res.andThen, hcx, Props.put, hname, hdef]
      refine ⟨_, hass, ?_, ?_, ?_, ?_, ?_, rfl, rfl⟩
      · simp [ownValue, List.getElem?_set_self, hd, Dict.get?_store_self]
      · intro e other hne
        by_cases hed : e = d
        · subst hed
          have hother : other ≠ name := by
            rcases hne with h | h
            · exact absurd rfl h
            · exact h
          simp [ownValue, List.getElem?_set_self, hd, hcx, Dict.get?_store_other _ _ _ _ hother]
        · simp [ownValue, List.getElem?_set_ne (Ne.symm hed)]
      · intro e
        by_cases hed : e = d
        · subst hed
          simp [ownNames, List.getElem?_set_self, hd, hcx, Dict.keys_store_of_owns _ _ _ hdef]
        · simp [ownNames, List.getElem?_set_ne (Ne.symm hed)]
      · intro e
        by_cases hed : e = d
        · subst hed
          simp [List.getElem?_set_self, hd, hcx]
        · simp [List.getElem?_set_ne (Ne.symm hed)]
      · simp
  · intro hun
    unfold Context.assign Context.findDefinition
    rw [findDefinitionLoop_unbound st name hch this _ hthis hthis hun hplain]
    rfl

theorem sampleStore_chained : chained sampleStore.contexts := by
  intro c cx h o ho
  match c with
  | 0 =>
    simp only [sampleStore, List.getElem?_cons_zero, Option.some.injEq] at h
    subst h
    simp at ho
  | 1 =>
    simp only [sampleStore, List.getElem?_cons_succ, List.getElem?_cons_zero,
      Option.some.injEq] at h
    subst h
    simp only [Option.some.injEq] at ho
    omega
  | c + 2 => simp [sampleStore] at h

theorem sampleStore_plain : unbound sampleStore.contexts 1 "hasOwnProperty" := by
  intro j d hj
  match j with
  | 0 =>
    simp only [nthOuter, Option.some.injEq] at hj
    subst hj
    decide
  | 1 =>
    simp only [nthOuter, sampleStore, List.getElem?_cons_succ, List.getElem?_cons_zero,
      Option.some.injEq] at hj
    subst hj
    decide
  | j + 2 => simp [nthOuter, sampleStore] at hj

theorem sampleStore_innermost_y : innermost sampleStore.contexts 1 "y" 0 :=
  ⟨1, rfl, by decide, fun i hi e he => by
    have : i = 0 := by omega
    subst this
    simp only [nthOuter, Option.some.injEq] at he
    subst he
    decide⟩

/-- In `sampleStore`, `y` looked up from the child context is found in the
global context. -/
theorem lookUp_contract_example :
    Context.lookUp 1 "y" sampleStore = some (.ok (.num (Dbl.ofInt 5)), sampleStore) :=
  (lookUp_contract sampleStore 1 "y" sampleStore_chained (by decide) sampleStore_plain).1 0
    (.num (Dbl.ofInt 5)) sampleStore_innermost_y rfl

/-- Defining `y` in the child context of `sampleStore`, whose parent binds `y`
already, succeeds and is read back. -/
theorem define_contract_example :
    ∃ st1, Context.define 1 "y" (.str "new") sampleStore = some (.ok (), st1) ∧
      Context.lookUp 1 "y" st1 = some (.ok (.str "new"), st1) :=
  (define_contract sampleStore 1 ⟨some 0, { own := [("x", .num (Dbl.ofInt 2))] }⟩ "y"
    (.str "new") rfl rfl rfl (by decide)).2.2 rfl (by decide)

/-- In `sampleStore`, assigning `y` from the child context reaches the global
context and leaves every other binding alone. -/
theorem assign_contract_example :
    ∃ st1, Context.assign 1 "y" (.str "new") sampleStore = some (.ok (), st1) ∧
      ownValue st1.contexts 0 "y" = some (.str "new") ∧
      ownValue st1.contexts 0 "x" = some (.num (Dbl.ofInt 1)) ∧
      ownNames st1.contexts 1 = ["x"] :=
  match (assign_contract sampleStore 1 "y" (.str "new") sampleStore_chained (by decide)
      sampleStore_plain (by decide)).1 0 sampleStore_innermost_y with
  | ⟨st1, h1, h2, h3, h4, _⟩ =>
    ⟨st1, h1, h2, (h3 0 "x" (Or.inr (by decide))).trans rfl, (h4 1).trans rfl⟩

/-! ### Variables named like a property of the host object

`variables` and `fields` are plain host objects.  The theorems of this section
run the methods on the two names for which that shows: `hasOwnProperty`, which
once stored replaces the method the interpreter calls on the dictionary, and
`__proto__`, whose write never creates a property. -/

/-- C1 fails on the code once a program declares a variable named
`hasOwnProperty`.  After `var hasOwnProperty = "s";` the global context still
binds `print`, and yet `lookUp("print")` from it, and from a child context,
throws a host `TypeError` instead of returning the value; `lookUp` of a name
that no context binds throws the same `TypeError`, which is not the
"not defined" `RuntimeError`.  Before the declaration both lookups behave as
the claim says. -/
theorem lookUp_fails_once_hasOwnProperty_is_bound :
    interpret sampleHost 2 [.varStmt "hasOwnProperty" (.stringExpr "s")] Interpreter =
        some (.ok (), shadowedStore) ∧
      ownValue shadowedStore.contexts 0 "print" = some (.native .print) ∧
      Context.lookUp 0 "print" shadowedStore = some (.error .hostTypeError, shadowedStore) ∧
      Context.lookUp 1 "print" (newContext shadowedStore (some 0)).2 =
        some (.error .hostTypeError, (newContext shadowedStore (some 0)).2) ∧
      unbound shadowedStore.contexts 0 "absent" ∧
      Context.lookUp 0 "absent" shadowedStore = some (.error .hostTypeError, shadowedStore) ∧
      Err.hostTypeError ≠ notDefined "absent" ∧
      Context.lookUp 0 "print" Interpreter = some (.ok (.native .print), Interpreter) ∧
      Context.lookUp 0 "absent" Interpreter =
        some (.error (notDefined "absent"), Interpreter) :=
  ⟨rfl, rfl, rfl, rfl,
    unbound_of_no_outer _ 0
      ⟨none, { own := [("print", .native .print), ("hasOwnProperty", .str "s")] }⟩ "absent"
      rfl rfl rfl,
    rfl, (by simp [notDefined]), rfl, rfl⟩

/-- C2 fails on the code for the names `__proto__` and `hasOwnProperty`.
`define("__proto__", "s")` on the global context returns normally and leaves
the store as it was: a `lookUp` of the name then throws "not defined" instead
of returning the value, and a second `define` of the same name succeeds.
`define("hasOwnProperty", "s")` returns normally too, after which `lookUp` of
that name throws a host `TypeError`, and so does every further `define`,
of a name the context does not bind as of one it binds.  In the store of
`Interpreter` a `define` of `x` is read back and a `define` of the bound
`print` fails with "already defined", as the claim says. -/
theorem define_is_not_read_back_for_host_names :
    Context.define 0 "__proto__" (.str "s") Interpreter = some (.ok (), Interpreter) ∧
      Context.lookUp 0 "__proto__" Interpreter =
        some (.error (notDefined "__proto__"), Interpreter) ∧
      interpret sampleHost 2
          [.varStmt "__proto__" (.stringExpr "s"), .varStmt "__proto__" (.stringExpr "t"),
            .expressionStmt (.variableExpr "__proto__")] Interpreter =
        some (.error (notDefined "__proto__"), Interpreter) ∧
      Context.define 0 "hasOwnProperty" (.str "s") Interpreter = some (.ok (), shadowedStore) ∧
      Context.lookUp 0 "hasOwnProperty" shadowedStore =
        some (.error .hostTypeError, shadowedStore) ∧
      definesName shadowedStore.contexts 0 "x" = false ∧
      Context.define 0 "x" (.str "v") shadowedStore =
        some (.error .hostTypeError, shadowedStore) ∧
      definesName shadowedStore.contexts 0 "print" = true ∧
      Context.define 0 "print" (.str "v") shadowedStore =
        some (.error .hostTypeError, shadowedStore) ∧
      (∃ st1, Context.define 0 "x" (.str "v") Interpreter = some (.ok (), st1) ∧
        Context.lookUp 0 "x" st1 = some (.ok (.str "v"), st1)) ∧
      Context.define 0 "print" (.str "v") Interpreter =
        some (.error (alreadyDefined "print"), Interpreter) :=
  ⟨rfl, rfl, rfl, rfl, rfl, rfl, rfl, rfl, rfl, ⟨_, rfl, rfl⟩, rfl⟩

/-- C3 fails on the code once a program declares a variable named
`hasOwnProperty`.  After `var x = "old"; var hasOwnProperty = "s";` an
`assign` to the bound `x` throws a host `TypeError` without overwriting it,
and an `assign` to a name no context binds throws the same `TypeError`, not
"not defined".  After `var hasOwnProperty = print;` an `assign` to `y`, which
no context binds, returns normally and creates the binding in the global
context (and prints `"y"`).  In the store of `Interpreter` an `assign` to an
unbound name fails with "not defined" and an `assign` to `print` overwrites
it without adding a name, as the claim says. -/
theorem assign_goes_wrong_once_hasOwnProperty_is_bound :
    (∃ st1, interpret sampleHost 2
          [.varStmt "x" (.stringExpr "old"), .varStmt "hasOwnProperty" (.stringExpr "s")]
          Interpreter = some (.ok (), st1) ∧
        ownValue st1.contexts 0 "x" = some (.str "old") ∧
        Context.assign 0 "x" (.str "new") st1 = some (.error .hostTypeError, st1) ∧
        definesName st1.contexts 0 "absent" = false ∧
        Context.assign 0 "absent" (.str "new") st1 = some (.error .hostTypeError, st1)) ∧
      interpret sampleHost 2 [.varStmt "hasOwnProperty" (.variableExpr "print")] Interpreter =
        some (.ok (), printShadowedStore) ∧
      ownNames printShadowedStore.contexts 0 = ["print", "hasOwnProperty"] ∧
      (∃ st3, Context.assign 0 "y" (.str "v") printShadowedStore = some (.ok (), st3) ∧
        ownNames st3.contexts 0 = ["print", "hasOwnProperty", "y"] ∧
        ownValue st3.contexts 0 "y" = some (.str "v") ∧
        st3.output = [.str "y"]) ∧
      Context.assign 0 "absent" (.str "new") Interpreter =
        some (.error (notDefined "absent"), Interpreter) ∧
      (∃ st1, Context.assign 0 "print" (.str "new") Interpreter = some (.ok (), st1) ∧
        ownNames st1.contexts 0 = ["print"] ∧
        ownValue st1.contexts 0 "print" = some (.str "new")) :=
  ⟨⟨_, rfl, rfl, rfl, rfl, rfl⟩, rfl, rfl, ⟨_, rfl, rfl, rfl, rfl⟩, rfl, ⟨_, rfl, rfl, rfl⟩⟩

/-- C4 fails on the code for `x = hasOwnProperty`.  The global context `P`
binds `hasOwnProperty` to `"s"` and `C` is a child of `P`; `C.define` of the
name with `"w"` returns normally and both contexts own their value, and yet
`lookUp` of the name from `C` and from `P` throws a host `TypeError` instead
of returning `"w"` and `"s"`.  The program `var hasOwnProperty = "v";
{ var hasOwnProperty = "w"; print(hasOwnProperty); }` stops with that
`TypeError`, while the same program on the name `x` prints `"w"`. -/
theorem shadowing_hasOwnProperty_breaks_lookUp :
    ownValue shadowedStore.contexts 0 "hasOwnProperty" = some (.str "s") ∧
      (∃ st1, Context.define 1 "hasOwnProperty" (.str "w") (newContext shadowedStore (some 0)).2 =
          some (.ok (), st1) ∧
        (st1.contexts[1]?).map Context.outer = some (some 0) ∧
        ownValue st1.contexts 1 "hasOwnProperty" = some (.str "w") ∧
        ownValue st1.contexts 0 "hasOwnProperty" = some (.str "s") ∧
        Context.lookUp 1 "hasOwnProperty" st1 = some (.error .hostTypeError, st1) ∧
        Context.lookUp 0 "hasOwnProperty" st1 = some (.error .hostTypeError, st1)) ∧
      (∃ st1, interpret sampleHost 5 (shadowingProgram "hasOwnProperty") Interpreter =
          some (.error .hostTypeError, st1) ∧ st1.output = []) ∧
      (∃ st1, interpret sampleHost 5 (shadowingProgram "x") Interpreter = some (.ok (), st1) ∧
        st1.output = [.str "w"] ∧
        Context.lookUp 1 "x" st1 = some (.ok (.str "w"), st1) ∧
        Context.lookUp 0 "x" st1 = some (.ok (.str "v"), st1)) :=
  ⟨rfl, ⟨_, rfl, rfl, rfl, rfl, rfl, rfl⟩, ⟨_, rfl, rfl⟩, ⟨_, rfl, rfl, rfl, rfl⟩⟩

/-! ### Calls -/

theorem callStore_chained : chained callStore.contexts := by
  intro c cx h o ho
  match c with
  | 0 =>
    simp only [callStore, List.getElem?_cons_zero, Option.some.injEq] at h
    subst h
    simp at ho
  | 1 =>
    simp only [callStore, List.getElem?_cons_succ, List.getElem?_cons_zero,
      Option.some.injEq] at h
    subst h
    simp only [Option.some.injEq] at ho
    omega
  | c + 2 => simp [callStore] at h

/-- C5: lexical scoping.  A call of a `VoxFunction` with matching arity
allocates a context that did not exist before, whose `outer` is the captured
closure and not the context of the call site, binds the parameters in it and
evaluates the body against it; when the body starts the `outer` of that
context is still the closure and every older context is as it was.  The
outcome is the same from any two call-site contexts, and a variable reference
from the context of the body has the same outcome whatever a context outside
its chain, such as a call site that is not on the closure chain, binds.  A
name bound at the call site but neither in the closure chain nor among the
parameters is not defined inside the body: the reference throws the
"not defined" `RuntimeError` (this error is stated where neither a parameter
nor the closure chain binds the host name `hasOwnProperty`). -/
theorem call_is_lexically_scoped (H : Host) (ev : Node → Nat → State → Res Value) (st : State)
    (ref : Nat) (o : VoxObject) (fn : VoxFunction) (args : List Value)
    (hobj : st.objects[ref]? = some o) (hkind : o.kind = .function fn)
    (harity : args.length = fn.parameters.length) :
    (∀ callSite, callValue H ev (.obj ref) args callSite st =
        (defineParameters fn.parameters args st.contexts.length
          (newContext st (some fn.closure)).2).andThen
          fun _ st2 => ev fn.body st.contexts.length st2) ∧
    st.contexts[st.contexts.length]? = none ∧
    (newContext st (some fn.closure)).2.contexts[st.contexts.length]? =
        some ⟨some fn.closure, {}⟩ ∧
    (∀ st2, defineParameters fn.parameters args st.contexts.length
          (newContext st (some fn.closure)).2 = some (.ok (), st2) →
        (st2.contexts[st.contexts.length]?).map Context.outer = some (some fn.closure) ∧
        ∀ i, i < st.contexts.length → st2.contexts[i]? = st.contexts[i]?) ∧
    (∀ c1 c2, callValue H ev (.obj ref) args c1 st = callValue H ev (.obj ref) args c2 st) ∧
    (∀ x callSite st2 (cs : Context) (vars : Props),
      defineParameters fn.parameters args st.contexts.length
          (newContext st (some fn.closure)).2 = some (.ok (), st2) →
      st2.contexts[callSite]? = some cs →
      (∀ j d, nthOuter st2.contexts j st.contexts.length = some d → d ≠ callSite) →
      (Context.lookUp st.contexts.length x
          { st2 with contexts := st2.contexts.set callSite { cs with vars := vars } }).map
          Prod.fst =
        (Context.lookUp st.contexts.length x st2).map Prod.fst) ∧
    (∀ x callSite st2, chained st.contexts → fn.closure < st.contexts.length →
      x ∉ fn.parameters → "hasOwnProperty" ∉ fn.parameters →
      unbound st.contexts fn.closure x → unbound st.contexts fn.closure "hasOwnProperty" →
      definesName st.contexts callSite x = true →
      defineParameters fn.parameters args st.contexts.length
          (newContext st (some fn.closure)).2 = some (.ok (), st2) →
        Context.lookUp st.contexts.length x st2 = some (.error (notDefined x), st2) ∧
        (fn.body = .variableExpr x → ∀ fuel,
          callValue H (evaluate H (fuel + 1)) (.obj ref) args callSite st =
            some (.error (notDefined x), st2))) := by
  have hcall : ∀ (ev2 : Node → Nat → State → Res Value) callSite,
      callValue H ev2 (.obj ref) args callSite st =
        (defineParameters fn.parameters args st.contexts.length
          (newContext st (some fn.closure)).2).andThen
          fun _ st2 => ev2 fn.body st.contexts.length st2 := by
    intro ev2 callSite
    simp [callValue, hobj, hkind, harity, newContext]
  have hframe : ∀ st2, defineParameters fn.parameters args st.contexts.length
        (newContext st (some fn.closure)).2 = some (.ok (), st2) →
      st2.contexts.length = st.contexts.length + 1 ∧
      (st2.contexts[st.contexts.length]?).map Context.outer = some (some fn.closure) ∧
      (∀ i, i < st.contexts.length → st2.contexts[i]? = st.contexts[i]?) ∧
      (∀ k, k ∉ fn.parameters → definesName st2.contexts st.contexts.length k = false) := by
    intro st2 h
    obtain ⟨_, g2, g3, g4, g5, _⟩ := defineParameters_frame _ _ _ _ _ h
    refine ⟨by simpa [newContext] using g2, by simpa [newContext] using g4, ?_, ?_⟩
    · intro i hi
      rw [g3 i (by omega)]
      simp [newContext, List.getElem?_append_left hi]
    · intro k hk
      rw [definesName_eq_isSome, g5 k hk]
      simp [newContext, ownValue, Dict.get?]
  refine ⟨hcall ev, List.getElem?_eq_none (Nat.le_refl _), by simp [newContext], ?_, ?_, ?_, ?_⟩
  · intro st2 h
    exact ⟨(hframe st2 h).2.1, (hframe st2 h).2.2.1⟩
  · intro c1 c2
    rw [hcall ev c1, hcall ev c2]
  · intro x callSite st2 cs vars _ _ hoff
    exact lookUp_sees_chain_only st2
      { st2 with contexts := st2.contexts.set callSite { cs with vars := vars } }
      st.contexts.length x (by simp) rfl
      (fun j d hj => List.getElem?_set_ne (Ne.symm (hoff j d hj)))
  · intro x callSite st2 hch hcl hx hhop hun hplain _ hbind
    obtain ⟨hlen, hout, hsame, hown⟩ := hframe st2 hbind
    have hlook : Context.lookUp st.contexts.length x st2 =
        some (.error (notDefined x), st2) :=
      lookUp_of_unbound st2 st.contexts.length x
        (chained_call_context st st2 fn.closure hch hcl hlen hsame hout) (by omega)
        (unbound_call_context st st2 fn.closure x hch hcl hsame hout (hown x hx) hun)
        (unbound_call_context st st2 fn.closure "hasOwnProperty" hch hcl hsame hout
          (hown _ hhop) hplain)
    refine ⟨hlook, ?_⟩
    intro hbody fuel
    rw [hcall _ callSite, hbind, hbody]
    exact hlook

/-- Witness for C5: in `callStore` the function `fun (p) z`, declared in the
global context, is called from the context that binds `z`; inside the body `z`
is not defined. -/
theorem call_is_lexically_scoped_witness :
    callValue sampleHost (evaluate sampleHost 1) (.obj 0) [.str "arg"] 1 callStore =
      some (.error (notDefined "z"),
        callState callStore ⟨["p"], .variableExpr "z", 0⟩ [.str "arg"]) :=
  ((call_is_lexically_scoped sampleHost (evaluate sampleHost 1) callStore 0
    ⟨{}, .function ⟨["p"], .variableExpr "z", 0⟩⟩
    ⟨["p"], .variableExpr "z", 0⟩ [.str "arg"] rfl rfl rfl).2.2.2.2.2.2 "z" 1
    (callState callStore ⟨["p"], .variableExpr "z", 0⟩ [.str "arg"])
    callStore_chained (by decide) (by decide) (by decide)
    (unbound_of_no_outer _ 0 ⟨none, { own := [("print", .native .print)] }⟩ "z" rfl rfl rfl)
    (unbound_of_no_outer _ 0 ⟨none, { own := [("print", .native .print)] }⟩ "hasOwnProperty"
      rfl rfl rfl)
    (by decide) rfl).2 rfl 0

/-! ### Closures see later writes -/

/-- C6 fails on the code for a later `define` of the name `__proto__`.  The
program of the comment on `Context.prototype.define` passes `1` and then `2`
to `print`, and a name defined or assigned in the captured context after the
declaration of `foo` is seen by the later call, as the claim says.  But in
`fun foo() { print(__proto__); } var __proto__ = "late"; foo();` the
declaration of `__proto__` returns normally and the call of `foo` made
afterwards does not see it: the body throws "not defined" and nothing is
printed. -/
theorem late_define_of_proto_is_not_seen :
    (∃ st1, interpret sampleHost 7 closureProgram Interpreter = some (.ok (), st1) ∧
        st1.output = [.num (Dbl.ofInt 1), .num (Dbl.ofInt 2)]) ∧
      (∃ st1, interpret sampleHost 6 (lateDefineProgram "z") Interpreter = some (.ok (), st1) ∧
        st1.output = [.str "late"]) ∧
      (∃ st1, interpret sampleHost 6 lateAssignProgram Interpreter = some (.ok (), st1) ∧
        st1.output = [.str "late"]) ∧
      (∃ st0 st1, interpret sampleHost 6 ((lateDefineProgram "__proto__").take 2) Interpreter =
          some (.ok (), st0) ∧
        interpret sampleHost 6 (lateDefineProgram "__proto__") Interpreter =
          some (.error (notDefined "__proto__"), st1) ∧
        st1.output = []) :=
  ⟨⟨_, rfl, rfl⟩, ⟨_, rfl, rfl⟩, ⟨_, rfl, rfl⟩, ⟨_, _, rfl, rfl, rfl⟩⟩

/-! ### Arity -/

theorem alreadyDefined_ne_arityMismatch (p : String) : alreadyDefined p ≠ arityMismatch := by
  intro h
  simp only [alreadyDefined, arityMismatch, Err.runtimeError.injEq] at h
  have := congrArg String.data h
  simp [String.data_append] at this

theorem hostTypeError_ne_arityMismatch : Err.hostTypeError ≠ arityMismatch := by
  intro h
  cases h

theorem define_error_ne_arity (context : Nat) (name : String) (value : Value) (st s : State)
    (e : Err) (h : Context.define context name value st = some (.error e, s)) :
    e ≠ arityMismatch := by
  rcases define_error context name value st s e h with he | he
  · exact he ▸ alreadyDefined_ne_arityMismatch name
  · exact he ▸ hostTypeError_ne_arityMismatch

theorem defineParameters_error (parameters : List String) :
    ∀ (args : List Value) (context : Nat) (st s : State) (e : Err),
      defineParameters parameters args context st = some (.error e, s) →
      e ≠ arityMismatch := by
  induction parameters with
  | nil => intro args context st s e h; simp [defineParameters] at h
  | cons p ps ih =>
    intro args context st s e h
    cases args with
    | nil => simp [defineParameters] at h
    | cons a as =>
      simp only [defineParameters] at h
      cases hd : Context.define context p a st with
      | none => simp [hd, Res.andThen] at h
      | some r =>
        obtain ⟨x, s1⟩ := r
        cases x with
        | error e1 =>
          simp only [hd, Res.andThen, Option.some.injEq, Prod.mk.injEq, Except.error.injEq] at h
          exact h.1 ▸ define_error_ne_arity _ _ _ _ _ _ hd
        | ok u =>
          simp only [hd, Res.andThen] at h
          exact ih as context s1 s e h

theorem andThen_never {α β : Type} (r : Res α) (k : α → State → Res β) (e : Err) (s : State)
    (hk : ∀ a s2, k a s2 = none) (h : r.andThen k = some (.error e, s)) :
    r = some (.error e, s) := by
  cases r with
  | none => simp [Res.andThen] at h
  | some p =>
    obtain ⟨x, s2⟩ := p
    cases x with
    | ok a => simp [Res.andThen, hk] at h
    | error e2 => simpa [Res.andThen] using h

theorem bind_then_never_ne_arity (parameters : List String) (args : List Value) (context : Nat)
    (st s : State) (k : Unit → State → Res Value) (hk : ∀ a s2, k a s2 = none) :
    (defineParameters parameters args context st).andThen k ≠ some (.error arityMismatch, s) := by
  intro h
  have hd := andThen_never _ k _ _ hk h
  exact defineParameters_error parameters args context st s arityMismatch hd rfl

/-- C7: arity check.  For a `VoxFunction` with `n` parameters called with `m`
evaluated arguments, the call fails at the arity check, whatever the body
would do, exactly when `m ≠ n`: the error is "Arity mismatch.", the store is
untouched (no context is created, no parameter is bound, the body is not
evaluated).  When `m = n` the call goes on to bind the parameters in a fresh
context and evaluate the body.  The same holds for a class whose constructor
has `n` parameters, the only change to the store on failure being the object
allocated before the check. -/
theorem call_fails_on_arity_iff (H : Host) (st : State) (ref : Nat) (o : VoxObject)
    (args : List Value) (callSite : Nat) (hobj : st.objects[ref]? = some o) :
    (∀ fn, o.kind = .function fn →
      ((∀ ev, callValue H ev (.obj ref) args callSite st = some (.error arityMismatch, st)) ↔
        args.length ≠ fn.parameters.length) ∧
      (args.length = fn.parameters.length → ∀ ev,
        callValue H ev (.obj ref) args callSite st =
          (defineParameters fn.parameters args st.contexts.length
            (newContext st (some fn.closure)).2).andThen
            fun _ st2 => ev fn.body st.contexts.length st2)) ∧
    (∀ fn methods, o.kind = .class (some fn) methods →
      ((∀ ev, callValue H ev (.obj ref) args callSite st =
          some (.error arityMismatch, (newObject st ⟨{}, .object⟩).2)) ↔
        args.length ≠ fn.parameters.length) ∧
      (newObject st ⟨{}, .object⟩).2.contexts = st.contexts ∧
      (newObject st ⟨{}, .object⟩).2.output = st.output ∧
      (args.length = fn.parameters.length → ∀ ev,
        callValue H ev (.obj ref) args callSite st =
          (Context.define st.contexts.length "this" (.obj st.objects.length)
            (newContext (newObject st ⟨{}, .object⟩).2 (some fn.closure)).2).andThen
            fun _ st3 =>
              (defineParameters fn.parameters args st.contexts.length st3).andThen
                fun _ st4 =>
                  (ev fn.body st.contexts.length st4).andThen
                    fun _ st5 => some (.ok (.obj st.objects.length), st5))) := by
  constructor
  · intro fn hkind
    have hgo : args.length = fn.parameters.length → ∀ ev,
        callValue H ev (.obj ref) args callSite st =
          (defineParameters fn.parameters args st.contexts.length
            (newContext st (some fn.closure)).2).andThen
            fun _ st2 => ev fn.body st.contexts.length st2 := by
      intro harity ev
      simp [callValue, hobj, hkind, harity, newContext]
    refine ⟨⟨?_, ?_⟩, hgo⟩
    · intro hall heq
      have h := hall neverReturns
      rw [hgo heq neverReturns] at h
      exact bind_then_never_ne_arity _ _ _ _ _ _ (fun _ _ => rfl) h
    · intro hne ev
      simp [callValue, hobj, hkind, hne, arityMismatch]
  · intro fn methods hkind
    have hgo : args.length = fn.parameters.length → ∀ ev,
        callValue H ev (.obj ref) args callSite st =
          (Context.define st.contexts.length "this" (.obj st.objects.length)
            (newContext (newObject st ⟨{}, .object⟩).2 (some fn.closure)).2).andThen
            fun _ st3 =>
              (defineParameters fn.parameters args st.contexts.length st3).andThen
                fun _ st4 =>
                  (ev fn.body st.contexts.length st4).andThen
                    fun _ st5 => some (.ok (.obj st.objects.length), st5) := by
      intro harity ev
      simp [callValue, hobj, hkind, harity, newContext, newObject]
    refine ⟨⟨?_, ?_⟩, rfl, rfl, hgo⟩
    · intro hall heq
      have h := hall neverReturns
      rw [hgo heq neverReturns] at h
      cases hd : Context.define st.contexts.length "this" (.obj st.objects.length)
          (newContext (newObject st ⟨{}, .object⟩).2 (some fn.closure)).2 with
      | none => simp [hd, Res.andThen] at h
      | some r =>
        obtain ⟨x, s2⟩ := r
        cases x with
        | error e =>
          simp only [hd, Res.andThen, Option.some.injEq, Prod.mk.injEq, Except.error.injEq] at h
          exact define_error_ne_arity _ _ _ _ _ _ hd h.1
        | ok u =>
          simp only [hd, Res.andThen] at h
          exact bind_then_never_ne_arity fn.parameters args st.contexts.length s2 _
            (fun _ st4 => (neverReturns fn.body st.contexts.length st4).andThen
              fun _ st5 => some (.ok (.obj st.objects.length), st5))
            (fun _ _ => rfl) h
    · intro hne ev
      simp [callValue, hobj, hkind, hne, arityMismatch, newObject]

/-- Witness for C7: the two-parameter function of `arityStore` called with one
argument fails on arity, and called with two it returns its first argument. -/
theorem call_fails_on_arity_iff_witness :
    callValue sampleHost (evaluate sampleHost 1) (.obj 0) [.str "one"] 0 arityStore =
        some (.error arityMismatch, arityStore) ∧
      callValue sampleHost (evaluate sampleHost 1) (.obj 0) [.str "one", .str "two"] 0 arityStore =
        some (.ok (.str "one"),
          callState arityStore ⟨["a", "b"], .variableExpr "a", 0⟩ [.str "one", .str "two"]) :=
  have h := (call_fails_on_arity_iff sampleHost arityStore 0
    ⟨{}, .function ⟨["a", "b"], .variableExpr "a", 0⟩⟩ [.str "one"] 0 rfl).1
    ⟨["a", "b"], .variableExpr "a", 0⟩ rfl
  ⟨h.1.2 (by decide) (evaluate sampleHost 1),
    (((call_fails_on_arity_iff sampleHost arityStore 0
      ⟨{}, .function ⟨["a", "b"], .variableExpr "a", 0⟩⟩ [.str "one", .str "two"] 0 rfl).1
      ⟨["a", "b"], .variableExpr "a", 0⟩ rfl).2 rfl (evaluate sampleHost 1)).trans rfl⟩

/-! ### Instantiation -/

theorem set_length_append {α : Type} (l : List α) (a b : α) :
    (l ++ [a]).set l.length b = l ++ [b] := by
  induction l with
  | nil => rfl
  | cons x xs ih => simp [List.set, ih]

theorem getElem?_snoc_snoc {α : Type} (l : List α) (a b : α) :
    (l ++ [a] ++ [b])[l.length]? = some a := by
  rw [List.getElem?_append_left (by simp), List.getElem?_concat_length]

theorem lookUp_block_in_call (T : State) (C : List Context) (E : Option Nat) (vars : Props)
    (name : String) (v : Value)
    (hT : T.contexts = C ++ [⟨E, vars⟩] ++ [⟨some C.length, {}⟩])
    (hplain : vars.own.owns "hasOwnProperty" = false)
    (hv : vars.own.get? name = some v) :
    Context.lookUp (C.length + 1) name T = some (.ok v, T) := by
  have hlast : T.contexts[C.length + 1]? = some ⟨some C.length, {}⟩ := by
    rw [hT]
    have : (C ++ [(⟨E, vars⟩ : Context)]).length = C.length + 1 := by simp
    rw [← this, List.getElem?_concat_length]
  have hmid : T.contexts[C.length]? = some ⟨E, vars⟩ := by
    rw [hT, getElem?_snoc_snoc]
  apply lookUp_outer_own T (C.length + 1) C.length name v
  · rw [hlast]; rfl
  · simp [definesName, hlast, Dict.owns]
  · simp [definesName, hlast, Dict.owns]
  · simp [definesName, hmid, hplain]
  · simp [ownValue, hmid, hv]

/-- The store in which the body of the constructor `(x, y)` runs when it is
called with `(a, b)` from `st`, `E` being the closure: one more object, the
new instance without fields, and one more context binding `this`, `x`, `y`. -/
theorem pointBody_entry (st : State) (E : Nat) (a b : Value) :
    (Context.define st.contexts.length "this" (.obj st.objects.length)
      (newContext (newObject st ⟨{}, .object⟩).2 (some E)).2).andThen
      (fun _ st3 => defineParameters ["x", "y"] [a, b] st.contexts.length st3) =
    some (.ok (),
      { contexts := st.contexts ++
          [⟨some E, { own := [("this", .obj st.objects.length), ("x", a), ("y", b)] }⟩],
        objects := st.objects ++ [⟨{}, .object⟩],
        output := st.output }) := by
  simp [Context.define, newContext, newObject, defineParameters, Res.andThen,
    Props.hasOwnProperty, Props.put, Dict.get?, Dict.owns, Dict.store, truthy, set_length_append]

theorem pointBody_run (H : Host) (fuel : Nat) (st : State) (E : Nat) (a b : Value) :
    evaluate H (fuel + 4) pointBody st.contexts.length
        { contexts := st.contexts ++
            [⟨some E, { own := [("this", .obj st.objects.length), ("x", a), ("y", b)] }⟩],
          objects := st.objects ++ [⟨{}, .object⟩],
          output := st.output } =
      some (.ok .undefined, pointState st E a b) := by
  simp only [pointBody, evaluate, visitBlockStmt, newContext, evaluateEach,
    visitExpressionStmt, visitAssignExpr, List.length_append, List.length_singleton]
  rw [lookUp_block_in_call _ st.contexts (some E) _ "x" a rfl (by simp [Dict.owns])
    (by simp [Dict.get?])]
  simp only [Res.andThen]
  rw [lookUp_block_in_call _ st.contexts (some E) _ "this" (.obj st.objects.length) rfl
    (by simp [Dict.owns]) (by simp [Dict.get?])]
  simp only [Res.andThen, List.getElem?_concat_length, Props.put, Dict.owns, Dict.store]
  simp only [String.reduceEq, if_false, Bool.false_eq_true]
  rw [lookUp_block_in_call _ st.contexts (some E) _ "y" b rfl (by simp [Dict.owns])
    (by simp [Dict.get?])]
  simp only [Res.andThen]
  rw [lookUp_block_in_call _ st.contexts (some E) _ "this" (.obj st.objects.length) rfl
    (by simp [Dict.owns]) (by simp [Dict.get?])]
  simp [Res.andThen, set_length_append, Props.put, Dict.owns, Dict.store, pointState]

theorem callValue_constructor (H : Host) (ev : Node → Nat → State → Res Value) (st : State)
    (ref : Nat) (o : VoxObject) (fn : VoxFunction) (methods : Dict VoxFunction)
    (args : List Value) (callSite : Nat)
    (hobj : st.objects[ref]? = some o) (hkind : o.kind = .class (some fn) methods)
    (harity : args.length = fn.parameters.length) :
    callValue H ev (.obj ref) args callSite st =
      ((Context.define st.contexts.length "this" (.obj st.objects.length)
          (newContext (newObject st ⟨{}, .object⟩).2 (some fn.closure)).2).andThen
          fun _ st3 => defineParameters fn.parameters args st.contexts.length st3).andThen
        fun _ st4 =>
          (ev fn.body st.contexts.length st4).andThen
            fun _ st5 => some (.ok (.obj st.objects.length), st5) := by
  simp only [callValue, hobj, hkind, harity, ne_eq, not_true_eq_false, if_false, newObject,
    newContext]
  cases Context.define st.contexts.length "this" (.obj st.objects.length)
      { contexts := st.contexts ++ [⟨some fn.closure, {}⟩],
        objects := st.objects ++ [⟨{}, .object⟩], output := st.output } with
  | none => rfl
  | some r =>
    obtain ⟨x, s⟩ := r
    cases x with
    | error e => rfl
    | ok u => rfl

theorem andThen_ok {α β : Type} (r : Res α) (k : α → State → Res β) (b : β) (s : State)
    (h : r.andThen k = some (.ok b, s)) : ∃ a s1, r = some (.ok a, s1) ∧ k a s1 = some (.ok b, s) := by
  cases r with
  | none => simp [Res.andThen] at h
  | some p =>
    obtain ⟨x, s1⟩ := p
    cases x with
    | error e => simp [Res.andThen] at h
    | ok a => exact ⟨a, s1, rfl, by simpa [Res.andThen] using h⟩

/-- C8: instantiation with a constructor.  Calling a class whose constructor
is `(x, y) { this.x = x; this.y = y; }` with arguments `(a, b)` returns a
reference to an object that did not exist before the call and whose fields are
exactly `x: a, y: b`, every older object being untouched; the program
`var p = Point(3, 4)` leaves in `p` an object with fields `x: 3, y: 4`.  For
every class with a constructor, whenever the call returns a value, that value
is the reference to the object allocated by the call; once `this` and the
parameters are bound, the context of the body holds that object, still
without fields, as `this`, and whatever value the body yields the call returns
the object. -/
theorem construct_returns_new_object (H : Host) :
    (∀ (st : State) (ref : Nat) (o : VoxObject) (methods : Dict VoxFunction) (E : Nat)
      (a b : Value) (callSite fuel : Nat),
      st.objects[ref]? = some o → o.kind = .class (some ⟨["x", "y"], pointBody, E⟩) methods →
      ∃ st1, callValue H (evaluate H (fuel + 4)) (.obj ref) [a, b] callSite st =
          some (.ok (.obj st.objects.length), st1) ∧
        st.objects[st.objects.length]? = none ∧
        st1.objects[st.objects.length]? =
          some ⟨{ own := [("x", a), ("y", b)] }, .object⟩ ∧
        (∀ i, i < st.objects.length → st1.objects[i]? = st.objects[i]?)) ∧
    (∀ fuel, ∃ st1 r, interpret H (fuel + 6) pointProgram Interpreter = some (.ok (), st1) ∧
      ownValue st1.contexts 0 "p" = some (.obj r) ∧
      st1.objects[r]? =
        some ⟨{ own := [("x", .num (Dbl.ofInt 3)), ("y", .num (Dbl.ofInt 4))] }, .object⟩) ∧
    (∀ (ev : Node → Nat → State → Res Value) (st : State) (ref : Nat) (o : VoxObject)
      (fn : VoxFunction) (methods : Dict VoxFunction) (args : List Value) (callSite : Nat),
      st.objects[ref]? = some o → o.kind = .class (some fn) methods →
      st.objects[st.objects.length]? = none ∧
      (∀ v st5, callValue H ev (.obj ref) args callSite st = some (.ok v, st5) →
        v = .obj st.objects.length) ∧
      (args.length = fn.parameters.length → ∀ st4,
        (Context.define st.contexts.length "this" (.obj st.objects.length)
            (newContext (newObject st ⟨{}, .object⟩).2 (some fn.closure)).2).andThen
            (fun _ st3 => defineParameters fn.parameters args st.contexts.length st3) =
          some (.ok (), st4) →
        ownValue st4.contexts st.contexts.length "this" = some (.obj st.objects.length) ∧
        st4.objects[st.objects.length]? = some ⟨{}, .object⟩ ∧
        ("hasOwnProperty" ∉ fn.parameters →
          Context.lookUp st.contexts.length "this" st4 =
            some (.ok (.obj st.objects.length), st4)) ∧
        (∀ bodyValue st5,
          ev fn.body st.contexts.length st4 = some (.ok bodyValue, st5) →
          callValue H ev (.obj ref) args callSite st =
            some (.ok (.obj st.objects.length), st5)))) := by
  refine ⟨?_, ?_, ?_⟩
  · intro st ref o methods E a b callSite fuel hobj hkind
    refine ⟨pointState st E a b, ?_, List.getElem?_eq_none (Nat.le_refl _), ?_, ?_⟩
    · rw [callValue_constructor H _ st ref o ⟨["x", "y"], pointBody, E⟩ methods [a, b] callSite
        hobj hkind rfl]
      rw [show (⟨["x", "y"], pointBody, E⟩ : VoxFunction).parameters = ["x", "y"] from rfl,
        show (⟨["x", "y"], pointBody, E⟩ : VoxFunction).closure = E from rfl,
        show (⟨["x", "y"], pointBody, E⟩ : VoxFunction).body = pointBody from rfl,
        pointBody_entry]
      simp only [Res.andThen, pointBody_run]
    · simp [pointState]
    · intro i hi
      simp [pointState, List.getElem?_append_left hi]
  · intro fuel
    exact ⟨_, 1, rfl, rfl, rfl⟩
  · intro ev st ref o fn methods args callSite hobj hkind
    refine ⟨List.getElem?_eq_none (Nat.le_refl _), ?_, ?_⟩
    · intro v st5 hcall
      by_cases harity : args.length = fn.parameters.length
      · rw [callValue_constructor H ev st ref o fn methods args callSite hobj hkind harity] at hcall
        obtain ⟨_, st4, _, h2⟩ := andThen_ok _ _ _ _ hcall
        obtain ⟨_, _, _, h3⟩ := andThen_ok _ _ _ _ h2
        simp only [Option.some.injEq, Prod.mk.injEq, Except.ok.injEq] at h3
        exact h3.1.symm
      · simp [callValue, hobj, hkind, harity] at hcall
    · intro harity st4 hbind
      obtain ⟨_, st3, hthis, hparams⟩ := andThen_ok _ _ _ _ hbind
      obtain ⟨d1, _, _, _, d5, _⟩ := define_frame _ _ _ _ _ hthis
      obtain ⟨p1, _, _, _, p5, p6⟩ := defineParameters_frame _ _ _ _ _ hparams
      have hthis3 : ownValue st3.contexts st.contexts.length "this" =
          some (.obj st.objects.length) := by
        unfold Context.define at hthis
        simp only [newContext, newObject, List.getElem?_concat_length, Props.hasOwnProperty,
          Dict.get?, Res.andThen, truthy, Dict.owns, Bool.false_eq_true, if_false, Props.put,
          String.reduceEq, Dict.store, Option.some.injEq, Prod.mk.injEq, true_and] at hthis
        subst hthis
        simp [ownValue, Dict.get?]
      have hthis4 := p6 "this" _ (by decide) hthis3
      refine ⟨hthis4, ?_, ?_, ?_⟩
      · rw [p1, d1]
        simp [newContext, newObject]
      · intro hhop
        apply lookUp_own _ _ _ _ _ hthis4
        rw [definesName_eq_isSome, p5 _ hhop, d5 _ (by decide)]
        simp [newContext, newObject, ownValue, Dict.get?]
      · intro bodyValue st5 hbody
        rw [callValue_constructor H ev st ref o fn methods args callSite hobj hkind harity, hbind]
        simp only [Res.andThen, hbody]

/-- Witness for C8: the class of `arityStore`, whose constructor has an empty
body, called with two arguments returns a reference to the new object. -/
theorem construct_returns_new_object_witness :
    callValue sampleHost (evaluate sampleHost 1) (.obj 1) [.str "one", .str "two"] 0 arityStore =
      some (.ok (.obj 2),
        { contexts := arityStore.contexts ++
            [⟨some 0, { own := [("this", .obj 2), ("a", .str "one"), ("b", .str "two")] }⟩,
             ⟨some 1, {}⟩],
          objects := arityStore.objects ++ [⟨{}, .object⟩],
          output := [] }) :=
  (((construct_returns_new_object sampleHost).2.2 (evaluate sampleHost 1) arityStore 1
    ⟨{}, .class (some ⟨["a", "b"], .blockStmt [], 0⟩) []⟩ ⟨["a", "b"], .blockStmt [], 0⟩ []
    [.str "one", .str "two"] 0 rfl rfl).2.2 rfl
    { contexts := arityStore.contexts ++
        [⟨some 0, { own := [("this", .obj 2), ("a", .str "one"), ("b", .str "two")] }⟩],
      objects := arityStore.objects ++ [⟨{}, .object⟩],
      output := [] } rfl).2.2.2 .undefined _ rfl

theorem classMembers_no_constructor (name : String) (context : Nat) :
    ∀ (methods : List MethodDecl) (acc : Dict VoxFunction),
      (∀ m, m ∈ methods → m.name ≠ name) →
      (classMembers name context methods none acc).1 = none := by
  intro methods
  induction methods with
  | nil => intro acc _; rfl
  | cons m rest ih =>
    intro acc h
    have hm : m.name ≠ name := h m (by simp)
    simp only [classMembers, hm, if_false]
    split
    · exact ih _ (fun m2 hm2 => h m2 (by simp [hm2]))
    · exact ih _ (fun m2 hm2 => h m2 (by simp [hm2]))

/-- C9: instantiation without a constructor.  A class declaration none of
whose methods is named after the class yields a class without constructor, and
calling such a class with no arguments returns a reference to an object that
did not exist before and has no fields; the call does not consult the
evaluator at all and changes nothing else, so no method body is run.  Declared
under a name other than the host names `__proto__` and `hasOwnProperty`, in a
context whose variables are untouched by those names, the class is then
called by name with the same result. -/
theorem construct_without_constructor (H : Host) (name : String) (methods : List MethodDecl)
    (hno : ∀ m, m ∈ methods → m.name ≠ name) :
    (∀ context, (classMembers name context methods none []).1 = none) ∧
    (∀ (ev : Node → Nat → State → Res Value) (st : State) (ref : Nat) (o : VoxObject)
      (ms : Dict VoxFunction) (callSite : Nat),
      st.objects[ref]? = some o → o.kind = .class none ms →
      callValue H ev (.obj ref) [] callSite st =
          some (.ok (.obj st.objects.length), (newObject st ⟨{}, .object⟩).2) ∧
        st.objects[st.objects.length]? = none ∧
        (newObject st ⟨{}, .object⟩).2.objects = st.objects ++ [⟨{}, .object⟩] ∧
        (newObject st ⟨{}, .object⟩).2.contexts = st.contexts ∧
        (newObject st ⟨{}, .object⟩).2.output = st.output) ∧
    (∀ (st : State) (context : Nat) (cx : Context) (fuel : Nat),
      name ≠ "__proto__" → name ≠ "hasOwnProperty" →
      st.contexts[context]? = some cx → cx.vars.own.owns "hasOwnProperty" = false →
      cx.vars.proto = none → cx.vars.own.owns name = false →
      ∃ st1 st2,
        evaluate H (fuel + 1) (.classStmt name methods) context st = some (.ok .undefined, st1) ∧
        evaluate H (fuel + 2) (.callExpr (.variableExpr name) []) context st1 =
          some (.ok (.obj (st.objects.length + 1)), st2) ∧
        st1.objects[st.objects.length + 1]? = none ∧
        st2.objects = st1.objects ++ [⟨{}, .object⟩] ∧
        st2.objects[st.objects.length + 1]? = some ⟨{}, .object⟩ ∧
        st2.contexts = st1.contexts ∧ st2.output = st1.output) := by
  refine ⟨fun context => classMembers_no_constructor name context methods [] hno, ?_, ?_⟩
  · intro ev st ref o ms callSite hobj hkind
    refine ⟨?_, List.getElem?_eq_none (Nat.le_refl _), rfl, rfl, rfl⟩
    simp [callValue, hobj, hkind, newObject]
  · intro st context cx fuel hn1 hn2 hcx hplain hproto hfresh
    have hc : context < st.contexts.length := lt_length_of_getElem? _ _ _ hcx
    have hnone := classMembers_no_constructor name context methods [] hno
    obtain ⟨ctor, ms, hmem⟩ : ∃ c m, classMembers name context methods none [] = (c, m) :=
      ⟨_, _, rfl⟩
    rw [hmem] at hnone
    simp only at hnone
    subst hnone
    have hdef := define_of_fresh (newObject st ⟨{}, .class none ms⟩).2 context cx name
      (.obj st.objects.length) hcx hplain hproto hn1 hfresh
    refine ⟨{ contexts := st.contexts.set context
                { cx with vars := { cx.vars with
                    own := cx.vars.own.store name (.obj st.objects.length) } },
              objects := st.objects ++ [⟨{}, .class none ms⟩], output := st.output },
      { contexts := st.contexts.set context
                { cx with vars := { cx.vars with
                    own := cx.vars.own.store name (.obj st.objects.length) } },
              objects := st.objects ++ [⟨{}, .class none ms⟩] ++ [⟨{}, .object⟩],
              output := st.output }, ?_, ?_, ?_, rfl, ?_, rfl, rfl⟩
    · simp only [evaluate, visitClassStmt, hmem]
      rw [show (newObject st ⟨{}, .class none ms⟩).1 = st.objects.length from rfl, hdef]
      rfl
    · have hlook : Context.lookUp context name
          { contexts := st.contexts.set context
              { cx with vars := { cx.vars with
                  own := cx.vars.own.store name (.obj st.objects.length) } },
            objects := st.objects ++ [⟨{}, .class none ms⟩], output := st.output } =
          some (.ok (.obj st.objects.length),
            { contexts := st.contexts.set context
                { cx with vars := { cx.vars with
                    own := cx.vars.own.store name (.obj st.objects.length) } },
              objects := st.objects ++ [⟨{}, .class none ms⟩], output := st.output }) := by
        apply lookUp_own
        · simp [definesName, List.getElem?_set_self, hc,
            Dict.owns_store_other _ _ _ _ (Ne.symm hn2), hplain]
        · simp [ownValue, List.getElem?_set_self, hc, Dict.get?_store_self]
      simp [evaluate, visitCallExpr, hlook, Res.andThen, evaluateArgs, callValue, newObject]
    · simp
    · have : (st.objects ++ [(⟨{}, .class none ms⟩ : VoxObject)]).length =
          st.objects.length + 1 := by simp
      rw [← this, List.getElem?_concat_length]

/-- Witness for C9: declaring `pairClass` as `Pair` in the global context and
calling `Pair()` returns a new object without fields. -/
theorem construct_without_constructor_witness :
    ∃ st1 st2,
      evaluate sampleHost 1 (.classStmt "Pair" pairClass) 0 Interpreter =
        some (.ok .undefined, st1) ∧
      evaluate sampleHost 2 (.callExpr (.variableExpr "Pair") []) 0 st1 =
        some (.ok (.obj 1), st2) ∧
      st2.objects[1]? = some ⟨{}, .object⟩ :=
  match (construct_without_constructor sampleHost "Pair" pairClass (by decide)).2.2
      Interpreter 0 ⟨none, { own := [("print", .native .print)] }⟩ 0 (by decide) (by decide)
      rfl rfl rfl rfl with
  | ⟨st1, st2, h1, h2, _, _, h5, _⟩ => ⟨st1, st2, h1, h2, h5⟩

/-! ### Arithmetic on integer-valued doubles -/

theorem bitLenAux_spec : ∀ fuel n, n ≤ fuel → n ≠ 0 →
    2 ^ (bitLenAux fuel n - 1) ≤ n ∧ n < 2 ^ bitLenAux fuel n := by
  intro fuel
  induction fuel with
  | zero => intro n h h0; omega
  | succ fuel ih =>
    intro n h h0
    simp only [bitLenAux, h0, if_false]
    by_cases h2 : n / 2 = 0
    · have hn : n = 1 := by omega
      subst hn
      cases fuel <;> simp [bitLenAux]
    · obtain ⟨hlo, hhi⟩ := ih (n / 2) (by omega) h2
      have hpos : 0 < bitLenAux fuel (n / 2) := by
        cases fuel with
        | zero => omega
        | succ f => simp [bitLenAux, h2]
      constructor
      · have : bitLenAux fuel (n / 2) + 1 - 1 = (bitLenAux fuel (n / 2) - 1) + 1 := by omega
        rw [this, Nat.pow_succ]
        omega
      · rw [Nat.pow_succ]
        omega

theorem bitLen_le (n : Nat) (hn : n ≠ 0) : 2 ^ (bitLen n - 1) ≤ n :=
  (bitLenAux_spec n n (Nat.le_refl n) hn).1

theorem halfEven_mul (q D : Nat) (hD : 0 < D) : Dbl.halfEven (q * D) D = q := by
  unfold Dbl.halfEven
  have h1 : q * D % D = 0 := Nat.mul_mod_left q D
  have h2 : q * D / D = q := Nat.mul_div_cancel q hD
  rw [h1, h2]
  have : ¬ (D < 2 * 0 ∨ 2 * 0 = D ∧ q % 2 = 1) := by omega
  rw [if_neg this]

theorem round_exact (s : Bool) (k d : Nat) (hd : 0 < d) (hk : Dbl.representable k) :
    Dbl.round s (k * d) d = .fin s k := by
  obtain ⟨hlt, hmod⟩ := hk
  have hdiv : k * d / d = k := Nat.mul_div_cancel k hd
  obtain ⟨q, hq⟩ : ∃ q, k = q * 2 ^ (bitLen k - 53) :=
    ⟨k / 2 ^ (bitLen k - 53), by
      have := Nat.div_add_mod k (2 ^ (bitLen k - 53))
      rw [hmod] at this
      rw [Nat.mul_comm]
      omega⟩
  have hpos : 0 < d * 2 ^ (bitLen k - 53) := Nat.mul_pos hd (Nat.pow_pos (by decide))
  have hn : k * d = q * (d * 2 ^ (bitLen k - 53)) := by
    conv_lhs => rw [hq]
    ring
  simp only [Dbl.round, hdiv]
  rw [hn, halfEven_mul q _ hpos, ← hq]
  simp [Nat.not_le.mpr hlt]

theorem representable_of_le (n : Nat) (hn : n ≤ 2 ^ 53) : Dbl.representable (n * Dbl.one) := by
  unfold Dbl.representable Dbl.overflow Dbl.one
  constructor
  · calc n * 2 ^ 1074 ≤ 2 ^ 53 * 2 ^ 1074 := Nat.mul_le_mul_right _ hn
      _ = 2 ^ 1127 := by rw [← Nat.pow_add]
      _ < 2 ^ 2098 := Nat.pow_lt_pow_right (by decide) (by decide)
  · apply Nat.mod_eq_zero_of_dvd
    by_cases h0 : n * 2 ^ 1074 = 0
    · rw [h0]; exact Nat.dvd_zero _
    · have hlo := bitLen_le _ h0
      have hle : 2 ^ (bitLen (n * 2 ^ 1074) - 1) ≤ 2 ^ 1127 :=
        calc 2 ^ (bitLen (n * 2 ^ 1074) - 1) ≤ n * 2 ^ 1074 := hlo
          _ ≤ 2 ^ 53 * 2 ^ 1074 := Nat.mul_le_mul_right _ hn
          _ = 2 ^ 1127 := by rw [← Nat.pow_add]
      have hb : bitLen (n * 2 ^ 1074) - 1 ≤ 1127 := (Nat.pow_le_pow_iff_right (by decide)).mp hle
      by_cases hs : bitLen (n * 2 ^ 1074) - 53 ≤ 1074
      · exact Dvd.dvd.mul_left (Nat.pow_dvd_pow 2 hs) n
      · have hs2 : bitLen (n * 2 ^ 1074) - 53 = 1075 := by omega
        have hb2 : bitLen (n * 2 ^ 1074) - 1 = 1127 := by omega
        rw [hb2] at hlo
        have hge : 2 ^ 53 * 2 ^ 1074 ≤ n * 2 ^ 1074 := by
          rw [← Nat.pow_add]; exact hlo
        have hn2 : 2 ^ 53 ≤ n := Nat.le_of_mul_le_mul_right hge (Nat.pow_pos (by decide))
        have hn3 : n = 2 ^ 53 := Nat.le_antisymm hn hn2
        rw [hs2, hn3, ← Nat.pow_add]
        exact Nat.pow_dvd_pow 2 (by decide)

theorem one_pos : 0 < Dbl.one := by
  unfold Dbl.one
  exact Nat.pow_pos (by decide)

theorem toInt_fin_mul_one (s : Bool) (m : Nat) :
    Dbl.toInt (.fin s (m * Dbl.one)) = some (Dbl.signed s m) := by
  simp only [Dbl.toInt, Nat.mul_mod_left, if_true, Nat.mul_div_cancel m one_pos, Dbl.signed]

theorem signed_natAbs (z : Int) : Dbl.signed (decide (z < 0)) z.natAbs = z := by
  unfold Dbl.signed
  by_cases h : z < 0
  · simp only [h, decide_True, if_true]; omega
  · simp only [h, decide_False]; simp; omega

theorem signed_not_natAbs (z : Int) : Dbl.signed (!decide (z < 0)) z.natAbs = -z := by
  unfold Dbl.signed
  by_cases h : z < 0
  · simp only [h, decide_True]; simp; omega
  · simp only [h, decide_False]; simp; omega

theorem add_exact (s t : Bool) (m n : Nat)
    (h : Dbl.exactInt (Dbl.signed s m + Dbl.signed t n)) :
    Dbl.toInt (Dbl.add (.fin s (m * Dbl.one)) (.fin t (n * Dbl.one))) =
      some (Dbl.signed s m + Dbl.signed t n) := by
  unfold Dbl.exactInt at h
  simp only [Dbl.add]
  by_cases hst : s = t
  · subst hst
    have habs : (Dbl.signed s m + Dbl.signed s n).natAbs = m + n := by
      cases s <;> simp [Dbl.signed] <;> omega
    rw [habs] at h
    have hsum : m * Dbl.one + n * Dbl.one = (m + n) * Dbl.one * 1 := by ring
    rw [if_pos rfl, hsum, round_exact s _ 1 (by decide) h, toInt_fin_mul_one]
    cases s <;> simp [Dbl.signed] <;> omega
  · rw [if_neg hst]
    by_cases hmn : m * Dbl.one = n * Dbl.one
    · have hmn2 : m = n := Nat.eq_of_mul_eq_mul_right one_pos hmn
      subst hmn2
      rw [if_pos rfl]
      have h0 : (0 : Nat) = 0 * Dbl.one := by simp
      rw [h0, toInt_fin_mul_one]
      cases s <;> cases t <;> simp [Dbl.signed] at hst ⊢
    · rw [if_neg hmn]
      by_cases hlt : n * Dbl.one < m * Dbl.one
      · have hlt2 : n < m := Nat.lt_of_mul_lt_mul_right hlt
        have habs : (Dbl.signed s m + Dbl.signed t n).natAbs = m - n := by
          cases s <;> cases t <;> simp [Dbl.signed] at hst ⊢ <;> omega
        rw [habs] at h
        have hsub : m * Dbl.one - n * Dbl.one = (m - n) * Dbl.one * 1 := by
          rw [Nat.mul_one, Nat.sub_mul]
        rw [if_pos hlt, hsub, round_exact s _ 1 (by decide) h, toInt_fin_mul_one]
        cases s <;> cases t <;> simp [Dbl.signed] at hst ⊢ <;> omega
      · have hlt2 : m < n := by
          have hne : m ≠ n := fun h => hmn (by rw [h])
          have : ¬ n < m := fun h => hlt (Nat.mul_lt_mul_of_pos_right h one_pos)
          omega
        have habs : (Dbl.signed s m + Dbl.signed t n).natAbs = n - m := by
          cases s <;> cases t <;> simp [Dbl.signed] at hst ⊢ <;> omega
        rw [habs] at h
        have hsub : n * Dbl.one - m * Dbl.one = (n - m) * Dbl.one * 1 := by
          rw [Nat.mul_one, Nat.sub_mul]
        rw [if_neg hlt, hsub, round_exact t _ 1 (by decide) h, toInt_fin_mul_one]
        cases s <;> cases t <;> simp [Dbl.signed] at hst ⊢ <;> omega

theorem mul_exact (s t : Bool) (m n : Nat)
    (h : Dbl.exactInt (Dbl.signed s m * Dbl.signed t n)) :
    Dbl.toInt (Dbl.mul (.fin s (m * Dbl.one)) (.fin t (n * Dbl.one))) =
      some (Dbl.signed s m * Dbl.signed t n) := by
  unfold Dbl.exactInt at h
  have habs : (Dbl.signed s m * Dbl.signed t n).natAbs = m * n := by
    cases s <;> cases t <;> simp [Dbl.signed, Int.natAbs_mul]
  rw [habs] at h
  have hprod : m * Dbl.one * (n * Dbl.one) = m * n * Dbl.one * Dbl.one := by ring
  simp only [Dbl.mul]
  rw [hprod, round_exact _ _ _ one_pos h, toInt_fin_mul_one]
  cases s <;> cases t <;> simp [Dbl.signed]

theorem rem_exact (a b : Int) (hb : b ≠ 0) :
    Dbl.toInt (Dbl.rem (Dbl.ofInt a) (Dbl.ofInt b)) = some (Int.tmod a b) := by
  have hb2 : b.natAbs * Dbl.one ≠ 0 :=
    Nat.mul_ne_zero (by omega) (Nat.pos_iff_ne_zero.mp one_pos)
  simp only [Dbl.ofInt, Dbl.rem, if_neg hb2, Nat.mul_mod_mul_right, toInt_fin_mul_one]
  congr 1
  rcases a with m | m <;> rcases b with n | n <;>
    simp [Dbl.signed, Int.tmod, Int.negSucc_lt_zero]

theorem evaluate_binary_literals (H : Host) (fuel context : Nat) (st : State) (x y : Dbl)
    (op : Token) :
    evaluate H (fuel + 2) (.binaryExpr (.numberExpr x) op (.numberExpr y)) context st =
      some (.ok (binaryOp H op (.num x) (.num y)), st) := by
  simp [evaluate, visitBinaryExpr, Res.andThen]

/-- C10 does not hold as stated: `2^53` and `1` are integer-valued numbers, and
`2^53 + 1` evaluates to `2^53`, not to the exact sum. -/
theorem plus_not_exact_above_two_pow_53 :
    Dbl.exactInt (2 ^ 53) ∧ Dbl.exactInt 1 ∧
      evaluate sampleHost 2 (.binaryExpr (intExpr (2 ^ 53)) .plus (intExpr 1)) 0 Interpreter =
        some (.ok (.num (Dbl.ofInt (2 ^ 53))), Interpreter) ∧
      Value.toInt (.num (Dbl.ofInt (2 ^ 53))) = some (2 ^ 53) ∧
      (2 ^ 53 : Int) ≠ 2 ^ 53 + 1 := by
  refine ⟨by decide!, by decide!, ?_, by decide!, by decide⟩
  have h : binaryOp sampleHost .plus (.num (Dbl.ofInt (2 ^ 53))) (.num (Dbl.ofInt 1)) =
      .num (Dbl.ofInt (2 ^ 53)) := by decide!
  rw [intExpr, intExpr, evaluate_binary_literals, h]

/-- C10, amended: for all integers `a` and `b`, the binary expressions
`a + b`, `a - b` and `a * b` evaluate to the exact sum, difference and product
whenever that result is exactly a double, which holds for every result of
magnitude at most `2^53`; `a % b` with `b ≠ 0` evaluates to the remainder of
the truncating division, which has the sign of `a`; and for all strings `s`
and `t`, `s + t` evaluates to their concatenation. -/
theorem arithmetic_exact_when_representable (H : Host) (a b : Int) (s t : String)
    (fuel context : Nat) (st : State) :
    (Dbl.exactInt (a + b) →
      ∃ v, evaluate H (fuel + 2) (.binaryExpr (intExpr a) .plus (intExpr b)) context st =
          some (.ok v, st) ∧ v.toInt = some (a + b)) ∧
    (Dbl.exactInt (a - b) →
      ∃ v, evaluate H (fuel + 2) (.binaryExpr (intExpr a) .minus (intExpr b)) context st =
          some (.ok v, st) ∧ v.toInt = some (a - b)) ∧
    (Dbl.exactInt (a * b) →
      ∃ v, evaluate H (fuel + 2) (.binaryExpr (intExpr a) .star (intExpr b)) context st =
          some (.ok v, st) ∧ v.toInt = some (a * b)) ∧
    (b ≠ 0 →
      ∃ v, evaluate H (fuel + 2) (.binaryExpr (intExpr a) .percent (intExpr b)) context st =
          some (.ok v, st) ∧ v.toInt = some (Int.tmod a b)) ∧
    evaluate H (fuel + 2) (.binaryExpr (.stringExpr s) .plus (.stringExpr t)) context st =
      some (.ok (.str (s ++ t)), st) ∧
    (∀ z : Int, z.natAbs ≤ 2 ^ 53 → Dbl.exactInt z) := by
  refine ⟨?_, ?_, ?_, ?_, ?_, fun z hz => representable_of_le z.natAbs hz⟩
  · intro h
    refine ⟨_, evaluate_binary_literals H fuel context st _ _ _, ?_⟩
    have := add_exact (decide (a < 0)) (decide (b < 0)) a.natAbs b.natAbs
      (by rw [signed_natAbs, signed_natAbs]; exact h)
    rw [signed_natAbs, signed_natAbs] at this
    simpa [binaryOp, jsAdd, toPrimitive, toNumber, Value.toInt, Dbl.ofInt] using this
  · intro h
    refine ⟨_, evaluate_binary_literals H fuel context st _ _ _, ?_⟩
    have := add_exact (decide (a < 0)) (!decide (b < 0)) a.natAbs b.natAbs
      (by rw [signed_natAbs, signed_not_natAbs]; exact h)
    rw [signed_natAbs, signed_not_natAbs] at this
    simpa [binaryOp, toPrimitive, toNumber, Value.toInt, Dbl.ofInt, Dbl.sub, Dbl.neg,
      Int.sub_eq_add_neg] using this
  · intro h
    refine ⟨_, evaluate_binary_literals H fuel context st _ _ _, ?_⟩
    have := mul_exact (decide (a < 0)) (decide (b < 0)) a.natAbs b.natAbs
      (by rw [signed_natAbs, signed_natAbs]; exact h)
    rw [signed_natAbs, signed_natAbs] at this
    simpa [binaryOp, toPrimitive, toNumber, Value.toInt, Dbl.ofInt] using this
  · intro hb
    refine ⟨_, evaluate_binary_literals H fuel context st _ _ _, ?_⟩
    simpa [binaryOp, toPrimitive, toNumber, Value.toInt] using rem_exact a b hb
  · simp [evaluate, visitBinaryExpr, Res.andThen, binaryOp, jsAdd, toPrimitive, toStr]

/-- Witness for C10: `1 + 2` yields `3`, `5 % 2` yields `1`, and `"a" + "b"`
yields `"ab"`. -/
theorem arithmetic_exact_when_representable_witness :
    (∃ v, evaluate sampleHost 2 (.binaryExpr (intExpr 1) .plus (intExpr 2)) 0 Interpreter =
        some (.ok v, Interpreter) ∧ v.toInt = some 3) ∧
    (∃ v, evaluate sampleHost 2 (.binaryExpr (intExpr 5) .percent (intExpr 2)) 0 Interpreter =
        some (.ok v, Interpreter) ∧ v.toInt = some 1) ∧
    evaluate sampleHost 2 (.binaryExpr (.stringExpr "a") .plus (.stringExpr "b")) 0 Interpreter =
      some (.ok (.str "ab"), Interpreter) :=
  ⟨(arithmetic_exact_when_representable sampleHost 1 2 "a" "b" 0 0 Interpreter).1 (by decide!),
    (arithmetic_exact_when_representable sampleHost 5 2 "a" "b" 0 0 Interpreter).2.2.2.1
      (by decide),
    (arithmetic_exact_when_representable sampleHost 1 2 "a" "b" 0 0 Interpreter).2.2.2.2.1⟩

/-! ### Host coercions in operators and conditions -/

theorem evaluate_binary_num_str (H : Host) (fuel context : Nat) (st : State) (x : Dbl)
    (y : String) (op : Token) :
    evaluate H (fuel + 2) (.binaryExpr (.numberExpr x) op (.stringExpr y)) context st =
      some (.ok (binaryOp H op (.num x) (.str y)), st) := by
  simp [evaluate, visitBinaryExpr, Res.andThen]

theorem evaluate_binary_str_num (H : Host) (fuel context : Nat) (st : State) (x : String)
    (y : Dbl) (op : Token) :
    evaluate H (fuel + 2) (.binaryExpr (.stringExpr x) op (.numberExpr y)) context st =
      some (.ok (binaryOp H op (.str x) (.num y)), st) := by
  simp [evaluate, visitBinaryExpr, Res.andThen]

/-- C11 fails on the code: no operator checks its operand types.  `1 + "a"`
evaluates to the string `"1a"`, `"a" - 1` and `"a" * 1` to NaN, and `"a" < 1`
to `false`; none of them raises an error. -/
theorem mixed_operands_are_coerced :
    evaluate sampleHost 2 (.binaryExpr (intExpr 1) .plus (.stringExpr "a")) 0 Interpreter =
        some (.ok (.str "1a"), Interpreter) ∧
      evaluate sampleHost 2 (.binaryExpr (.stringExpr "a") .minus (intExpr 1)) 0 Interpreter =
        some (.ok (.num .nan), Interpreter) ∧
      evaluate sampleHost 2 (.binaryExpr (.stringExpr "a") .star (intExpr 1)) 0 Interpreter =
        some (.ok (.num .nan), Interpreter) ∧
      evaluate sampleHost 2 (.binaryExpr (.stringExpr "a") .less (intExpr 1)) 0 Interpreter =
        some (.ok (.bool false), Interpreter) := by
  have h1 : binaryOp sampleHost .plus (.num (Dbl.ofInt 1)) (.str "a") = .str "1a" := by decide!
  have h2 : binaryOp sampleHost .minus (.str "a") (.num (Dbl.ofInt 1)) = .num .nan := by decide!
  have h3 : binaryOp sampleHost .star (.str "a") (.num (Dbl.ofInt 1)) = .num .nan := by decide!
  have h4 : binaryOp sampleHost .less (.str "a") (.num (Dbl.ofInt 1)) = .bool false := by decide!
  refine ⟨?_, ?_, ?_, ?_⟩
  · rw [intExpr, evaluate_binary_num_str, h1]
  · rw [intExpr, evaluate_binary_str_num, h2]
  · rw [intExpr, evaluate_binary_str_num, h3]
  · rw [intExpr, evaluate_binary_str_num, h4]

theorem truthy_zero : truthy (.num (Dbl.ofInt 0)) = false := by decide!

/-- C12 fails on the code: conditions and `!` use the host's truthiness, under
which zero and the empty string are falsy.  `!0` and `!""` evaluate to `true`,
and `if (0) print("then"); else print("else");` prints `"else"`. -/
theorem zero_and_empty_string_are_falsy :
    evaluate sampleHost 2 (.unaryExpr .bang (intExpr 0)) 0 Interpreter =
        some (.ok (.bool true), Interpreter) ∧
      evaluate sampleHost 2 (.unaryExpr .bang (.stringExpr "")) 0 Interpreter =
        some (.ok (.bool true), Interpreter) ∧
      evaluate sampleHost 4 ifZero 0 Interpreter =
        some (.ok .undefined,
          { (newContext Interpreter (some 0)).2 with output := [.str "else"] }) := by
  refine ⟨?_, ?_, ?_⟩
  · simp [evaluate, visitUnaryExpr, Res.andThen, intExpr, unaryOp, truthy_zero]
  · simp [evaluate, visitUnaryExpr, Res.andThen, unaryOp, truthy]
  · simp only [ifZero, evaluate, visitIfStmt, intExpr, Res.andThen, truthy_zero]
    rfl

/-! ### Logical operators -/

/-- C13: short-circuit.  `visitLogicalExpr` evaluates the left operand first
and once: if it does not return or throws, that is the outcome.  Otherwise,
for `and` a falsy left value is the result and the store is the one the left
operand left (the right operand is not evaluated, whatever it would do), and a
truthy left value makes the result the outcome of the right operand; for `or`
it is the other way round.  The value is always an operand value.  Truthy and
falsy are the host truthiness the method applies. -/
theorem logical_short_circuits (ev : Node → Nat → State → Res Value) (left right : Node)
    (context : Nat) (st : State) :
    (ev left context st = none →
      ∀ op, visitLogicalExpr ev left op right context st = none) ∧
    (∀ e st1, ev left context st = some (.error e, st1) →
      ∀ op, visitLogicalExpr ev left op right context st = some (.error e, st1)) ∧
    (∀ l st1, ev left context st = some (.ok l, st1) →
      (truthy l = false →
        visitLogicalExpr ev left .and right context st = some (.ok l, st1)) ∧
      (truthy l = true →
        visitLogicalExpr ev left .and right context st = ev right context st1) ∧
      (truthy l = true →
        visitLogicalExpr ev left .or right context st = some (.ok l, st1)) ∧
      (truthy l = false →
        visitLogicalExpr ev left .or right context st = ev right context st1)) := by
  refine ⟨?_, ?_, ?_⟩
  · intro h op
    simp [visitLogicalExpr, h, Res.andThen]
  · intro e st1 h op
    simp [visitLogicalExpr, h, Res.andThen]
  · intro l st1 h
    refine ⟨?_, ?_, ?_, ?_⟩ <;> intro ht <;> simp [visitLogicalExpr, h, Res.andThen, ht]

theorem evaluate_falseExpr (H : Host) (fuel context : Nat) (st : State) :
    evaluate H (fuel + 2) falseExpr context st = some (.ok (.bool false), st) := by
  simp only [falseExpr, evaluate, visitBinaryExpr, Res.andThen, binaryOp]
  rfl

theorem evaluate_trueExpr (H : Host) (fuel context : Nat) (st : State) :
    evaluate H (fuel + 2) trueExpr context st = some (.ok (.bool true), st) := by
  simp only [trueExpr, evaluate, visitBinaryExpr, Res.andThen, binaryOp]
  rfl

/-- Witness for C13: `false and print(..)` and `true or print(..)` return the
left value and print nothing. -/
theorem logical_short_circuits_witness :
    evaluate sampleHost 3 (.logicalExpr falseExpr .and sideEffect) 0 Interpreter =
        some (.ok (.bool false), Interpreter) ∧
      evaluate sampleHost 3 (.logicalExpr trueExpr .or sideEffect) 0 Interpreter =
        some (.ok (.bool true), Interpreter) :=
  ⟨((logical_short_circuits (evaluate sampleHost 2) falseExpr sideEffect 0 Interpreter).2.2
      (.bool false) Interpreter (evaluate_falseExpr sampleHost 0 0 Interpreter)).1 rfl,
    ((logical_short_circuits (evaluate sampleHost 2) trueExpr sideEffect 0 Interpreter).2.2
      (.bool true) Interpreter (evaluate_trueExpr sampleHost 0 0 Interpreter)).2.2.1 rfl⟩

/-! ### Fields and properties -/

/-- C14 fails on the code for the field names `__proto__` and
`hasOwnProperty`.  On a plain object `o`, the assignment `o.__proto__ = "v"`
returns `"v"` and writes no field, so a later `o.__proto__` throws
`"not impl"` instead of returning `"v"`.  The assignment
`o.hasOwnProperty = "v"` returns `"v"` and sets the field, after which reading
it back throws a host `TypeError`.  For the field name `f` the value is read
back, and assigning a field of the number `1` throws the `RuntimeError`
"Cannot add fields to 1", as the claim says. -/
theorem field_named_like_host_property_is_not_read_back :
    evaluate sampleHost 2 (setField "__proto__") 0 fieldStore =
        some (.ok (.str "v"), fieldStore) ∧
      evaluate sampleHost 2 (getField "__proto__") 0 fieldStore =
        some (.error (.thrown "not impl"), fieldStore) ∧
      (∃ st1, evaluate sampleHost 2 (setField "hasOwnProperty") 0 fieldStore =
          some (.ok (.str "v"), st1) ∧
        st1.objects[0]? = some ⟨{ own := [("hasOwnProperty", .str "v")] }, .object⟩ ∧
        evaluate sampleHost 2 (getField "hasOwnProperty") 0 st1 =
          some (.error .hostTypeError, st1)) ∧
      (∃ st1, evaluate sampleHost 2 (setField "f") 0 fieldStore = some (.ok (.str "v"), st1) ∧
        st1.objects[0]? = some ⟨{ own := [("f", .str "v")] }, .object⟩ ∧
        evaluate sampleHost 2 (getField "f") 0 st1 = some (.ok (.str "v"), st1)) ∧
      evaluate sampleHost 2
          (.assignExpr (.propertyExpr (intExpr 1) "f") (.stringExpr "v")) 0 fieldStore =
        some (.error (.runtimeError "Cannot add fields to 1"), fieldStore) := by
  refine ⟨rfl, rfl, ⟨_, rfl, rfl, rfl⟩, ⟨_, rfl, rfl, rfl⟩, ?_⟩
  have h : toStr sampleHost (.num (Dbl.ofInt 1)) = "1" := by decide!
  simp [evaluate, visitAssignExpr, Res.andThen, intExpr, h]

/-- C15 fails on the code: an unknown property does not raise the
interpreter's `RuntimeError`.  Reading a property of a number, of a string, or
a field never set on an object throws the bare string `"not impl"`, which is
no `RuntimeError` whatever its message. -/
theorem unknown_property_throws_string :
    evaluate sampleHost 2 (.propertyExpr (intExpr 1) "x") 0 fieldStore =
        some (.error (.thrown "not impl"), fieldStore) ∧
      evaluate sampleHost 2 (.propertyExpr (.stringExpr "s") "x") 0 fieldStore =
        some (.error (.thrown "not impl"), fieldStore) ∧
      evaluate sampleHost 2 (.propertyExpr (.variableExpr "o") "x") 0 fieldStore =
        some (.error (.thrown "not impl"), fieldStore) ∧
      ∀ message, Err.thrown "not impl" ≠ Err.runtimeError message := by
  refine ⟨?_, ?_, ?_, ?_⟩
  · simp [evaluate, visitPropertyExpr, Res.andThen, intExpr]
  · simp [evaluate, visitPropertyExpr, Res.andThen]
  · rfl
  · intro message h
    cases h

/-- C16 fails on the code: property access never looks at the methods of a
class.  After `class A { m() {} } var a = A();` the access `a.m` throws the
string `"not impl"` instead of returning a bound method. -/
theorem method_access_not_implemented :
    ∃ st1, interpret sampleHost 3 methodProgram Interpreter =
        some (.error (.thrown "not impl"), st1) ∧
      ∃ ms, st1.objects[0]? = some ⟨{}, .class none ms⟩ ∧ ms.owns "m" = true :=
  ⟨_, rfl, _, rfl, rfl⟩

/-- C17 fails on the code for the absence value: calling `undefined`, as in
`f()()` where `f` has a block body, makes the host throw a `TypeError` while
building the message, so no `RuntimeError` is raised.  For a number, a string,
a boolean and a plain object the `RuntimeError` "<value> cannot be called." is
raised as the claim says. -/
theorem calling_undefined_is_host_error :
    (∃ st1, interpret sampleHost 4 callAbsenceProgram Interpreter =
        some (.error .hostTypeError, st1)) ∧
      callValue sampleHost (evaluate sampleHost 1) .undefined [] 0 fieldStore =
        some (.error .hostTypeError, fieldStore) ∧
      callValue sampleHost (evaluate sampleHost 1) (.str "s") [] 0 fieldStore =
        some (.error (.runtimeError "s cannot be called."), fieldStore) ∧
      callValue sampleHost (evaluate sampleHost 1) (.bool true) [] 0 fieldStore =
        some (.error (.runtimeError "true cannot be called."), fieldStore) ∧
      callValue sampleHost (evaluate sampleHost 1) (.obj 0) [] 0 fieldStore =
        some (.error (.runtimeError "[object Object] cannot be called."), fieldStore) ∧
      callValue sampleHost (evaluate sampleHost 1) (.num (Dbl.ofInt 7)) [] 0 fieldStore =
        some (.error (.runtimeError "7 cannot be called."), fieldStore) := by
  refine ⟨⟨_, rfl⟩, rfl, ?_, ?_, ?_, ?_⟩
  · simp [callValue, toStr, toPrimitive]
  · simp [callValue, toStr, toPrimitive]
  · simp [callValue, fieldStore, toStr, toPrimitive]
  · have h : toStr sampleHost (.num (Dbl.ofInt 7)) = "7" := by decide!
    simp [callValue, h]

/-! ### A function sees its own name -/

/-- C18 does not hold as stated: in `fun f() { print(f); } f();`, run in the
global context where nothing binds `f` beforehand, the reference to `f` inside
the body resolves to the function being declared, which is what `print`
receives. -/
theorem function_sees_own_name :
    unbound Interpreter.contexts 0 "f" ∧
      ∃ st1, interpret sampleHost 6 selfReferenceProgram Interpreter = some (.ok (), st1) ∧
        st1.output = [.obj 0] ∧
        st1.objects[0]? = some ⟨{}, .function ⟨[], selfBody, 0⟩⟩ :=
  ⟨unbound_of_no_outer _ 0 ⟨none, { own := [("print", .native .print)] }⟩ "f" rfl rfl rfl,
    _, rfl, rfl, rfl⟩

/-- C18, amended: a declaration `fun f(parameters) body` executed in a context
whose chain has no earlier binding of `f` defines `f` in that context, which is
also the closure of the new function.  A call of `f` binds the parameters in a
fresh context whose `outer` is that closure and evaluates the body against it,
and when the body starts, unless a parameter is named `f`, a variable
reference to `f` from that context resolves to the function being declared.
Stated for a name `f` other than the host names `__proto__` and
`hasOwnProperty`, where neither the declaring context nor a parameter binds
`hasOwnProperty`. -/
theorem declaration_binds_name_in_closure (H : Host) (st : State) (context : Nat)
    (cx : Context) (f : String) (parameters : List String) (body : Node) (fuel : Nat)
    (hcx : st.contexts[context]? = some cx) (hun : unbound st.contexts context f)
    (hplain : cx.vars.own.owns "hasOwnProperty" = false) (hproto : cx.vars.proto = none)
    (hf1 : f ≠ "__proto__") (hf2 : f ≠ "hasOwnProperty") :
    ∃ st1, evaluate H (fuel + 1) (.funStmt f parameters body) context st =
        some (.ok .undefined, st1) ∧
      st1.objects[st.objects.length]? = some ⟨{}, .function ⟨parameters, body, context⟩⟩ ∧
      Context.lookUp context f st1 = some (.ok (.obj st.objects.length), st1) ∧
      (∀ args callSite (ev : Node → Nat → State → Res Value),
        args.length = parameters.length →
        callValue H ev (.obj st.objects.length) args callSite st1 =
          (defineParameters parameters args st1.contexts.length
            (newContext st1 (some context)).2).andThen
            fun _ st2 => ev body st1.contexts.length st2) ∧
      (f ∉ parameters → "hasOwnProperty" ∉ parameters → ∀ args st2,
        defineParameters parameters args st1.contexts.length
            (newContext st1 (some context)).2 = some (.ok (), st2) →
        Context.lookUp st1.contexts.length f st2 =
          some (.ok (.obj st.objects.length), st2)) := by
  have hc : context < st.contexts.length := lt_length_of_getElem? _ _ _ hcx
  have hfresh : cx.vars.own.owns f = false := by simpa [definesName, hcx] using hun 0 context rfl
  have hdef := define_of_fresh (newObject st ⟨{}, .function ⟨parameters, body, context⟩⟩).2
    context cx f (.obj st.objects.length) hcx hplain hproto hf1 hfresh
  have hlen1 : ({ (newObject st ⟨{}, .function ⟨parameters, body, context⟩⟩).2 with
      contexts := (newObject st ⟨{}, .function ⟨parameters, body, context⟩⟩).2.contexts.set
        context { cx with vars := { cx.vars with
          own := cx.vars.own.store f (.obj st.objects.length) } } } : State).contexts.length =
      st.contexts.length := by
    simp [newObject]
  have hplain1 : definesName ({ (newObject st ⟨{}, .function ⟨parameters, body, context⟩⟩).2 with
      contexts := (newObject st ⟨{}, .function ⟨parameters, body, context⟩⟩).2.contexts.set
        context { cx with vars := { cx.vars with
          own := cx.vars.own.store f (.obj st.objects.length) } } } : State).contexts context
      "hasOwnProperty" = false := by
    simp [definesName, newObject, List.getElem?_set_self, hc,
      Dict.owns_store_other _ _ _ _ (Ne.symm hf2), hplain]
  have hown1 : ownValue ({ (newObject st ⟨{}, .function ⟨parameters, body, context⟩⟩).2 with
      contexts := (newObject st ⟨{}, .function ⟨parameters, body, context⟩⟩).2.contexts.set
        context { cx with vars := { cx.vars with
          own := cx.vars.own.store f (.obj st.objects.length) } } } : State).contexts context f =
      some (.obj st.objects.length) := by
    simp [ownValue, newObject, List.getElem?_set_self, hc, Dict.get?_store_self]
  have hobj1 : ({ (newObject st ⟨{}, .function ⟨parameters, body, context⟩⟩).2 with
      contexts := (newObject st ⟨{}, .function ⟨parameters, body, context⟩⟩).2.contexts.set
        context { cx with vars := { cx.vars with
          own := cx.vars.own.store f (.obj st.objects.length) } } } : State).objects[
          st.objects.length]? = some ⟨{}, .function ⟨parameters, body, context⟩⟩ := by
    simp [newObject]
  refine ⟨_, ?_, hobj1, lookUp_own _ _ _ _ hplain1 hown1, ?_, ?_⟩
  · simp only [evaluate, visitFunStmt]
    rw [show (newObject st ⟨{}, .function ⟨parameters, body, context⟩⟩).1 = st.objects.length
      from rfl, hdef]
    rfl
  · intro args callSite ev harity
    simp [callValue, hobj1, harity, newContext]
  · intro hf hhop args st2 hbind
    obtain ⟨_, _, g3, g4, g5, _⟩ := defineParameters_frame _ _ _ _ _ hbind
    rw [hlen1] at hbind g3 g4 g5 ⊢
    have hne : context ≠ st.contexts.length := by omega
    apply lookUp_outer_own st2 st.contexts.length context f (.obj st.objects.length)
    · rw [g4]
      simp [newContext, newObject]
    · rw [definesName_eq_isSome, g5 _ hhop]
      simp [newContext, newObject, ownValue, Dict.get?]
    · rw [definesName_eq_isSome, g5 _ hf]
      simp [newContext, newObject, ownValue, Dict.get?]
    · have := hplain1
      simp only [definesName, newObject] at this ⊢
      rw [g3 context hne]
      simpa [newContext, newObject, List.getElem?_append_left (show context <
        (st.contexts.set context _).length by simpa using hc)] using this
    · have := hown1
      simp only [ownValue, newObject] at this ⊢
      rw [g3 context hne]
      simpa [newContext, newObject, List.getElem?_append_left (show context <
        (st.contexts.set context _).length by simpa using hc)] using this

/-- Witness for C18: declaring `fun f() { print(f); }` in the global context
makes `f` resolve, from the context of a call, to the function itself. -/
theorem declaration_binds_name_in_closure_witness :
    ∃ st1, evaluate sampleHost 1 (.funStmt "f" [] selfBody) 0 Interpreter =
        some (.ok .undefined, st1) ∧
      Context.lookUp st1.contexts.length "f" (newContext st1 (some 0)).2 =
        some (.ok (.obj 0), (newContext st1 (some 0)).2) :=
  match declaration_binds_name_in_closure sampleHost Interpreter 0
      ⟨none, { own := [("print", .native .print)] }⟩ "f" [] selfBody 0 rfl
      (unbound_of_no_outer _ 0 ⟨none, { own := [("print", .native .print)] }⟩ "f" rfl rfl rfl)
      rfl rfl (by decide) (by decide) with
  | ⟨st1, h1, _, _, _, h5⟩ => ⟨st1, h1, h5 (by simp) (by simp) [] _ rfl⟩

/-! ### While loops -/

theorem evaluate_varStmt_string (H : Host) (fuel context : Nat) (st : State) (x s : String) :
    evaluate H (fuel + 2) (.varStmt x (.stringExpr s)) context st =
      (Context.define context x (.str s) st).andThen fun _ st2 => some (.ok .undefined, st2) := by
  simp [evaluate, visitVarStmt, Res.andThen]

/-- C19 does not hold as stated for a Block body: in
`var a = ""; while (a != "xx") { var t = a; a = a + "x"; }` the body runs twice
and declares `t` both times without any "already defined" error, because each
run of the block binds `t` in a context of its own; the context of the loop
never binds `t`. -/
theorem block_body_gets_fresh_context :
    ∃ st1, interpret sampleHost 8 loopBlockProgram Interpreter = some (.ok (), st1) ∧
      ownValue st1.contexts 1 "t" = some (.str "") ∧
      ownValue st1.contexts 2 "t" = some (.str "x") ∧
      definesName st1.contexts 0 "t" = false ∧
      ownValue st1.contexts 0 "a" = some (.str "xx") :=
  ⟨_, rfl, rfl, rfl, rfl, rfl⟩

theorem evaluate_whileStmt (H : Host) (fuel : Nat) (condition body : Node) (context : Nat)
    (st : State) :
    evaluate H (fuel + 1) (.whileStmt condition body) context st =
      visitWhileStmt (evaluate H fuel) condition body context st := rfl

theorem evaluate_blockStmt (H : Host) (fuel : Nat) (statements : List Node) (context : Nat)
    (st : State) :
    evaluate H (fuel + 1) (.blockStmt statements) context st =
      visitBlockStmt (evaluate H fuel) statements context st := rfl

theorem define_in_new_context (st : State) (outer : Option Nat) (x s : String) :
    ∃ st1, Context.define st.contexts.length x (.str s) (newContext st outer).2 =
      some (.ok (), st1) := by
  by_cases hx : x = "__proto__"
  · subst hx
    simp [Context.define, newContext, Props.hasOwnProperty, Props.put, Dict.get?, Dict.owns,
      Res.andThen, truthy]
  · exact ⟨_, define_of_fresh _ _ ⟨outer, {}⟩ x (.str s) (by simp [newContext]) rfl rfl hx rfl⟩

theorem block_loop_never_returns (H : Host) (x s : String) :
    ∀ (fuel context : Nat) (st : State),
      evaluate H fuel (.whileStmt trueExpr (.blockStmt [.varStmt x (.stringExpr s)])) context st =
        none := by
  intro fuel
  induction fuel with
  | zero => intro context st; rfl
  | succ n ih =>
    intro context st
    match n with
    | 0 => rfl
    | 1 => rfl
    | 2 => rfl
    | n + 3 =>
      rw [evaluate_whileStmt, visitWhileStmt,
        show evaluate H (n + 3) trueExpr context st = some (.ok (.bool true), st) from
          evaluate_trueExpr H (n + 1) context st]
      simp only [Res.andThen, truthy, if_true]
      rw [evaluate_blockStmt, visitBlockStmt]
      obtain ⟨st1, hdef⟩ := define_in_new_context st (some context) x s
      simp only [evaluateEach, evaluate_varStmt_string]
      rw [show (newContext st (some context)).1 = st.contexts.length from rfl, hdef]
      simp only [Res.andThen]
      exact ih context _

/-- C19, amended: `visitWhileStmt` evaluates the body against the very context
in which the condition is evaluated, on every turn of the loop and for every
body.  So a bare variable declaration as body binds its name in that context:
with a condition that stays true, the first turn defines the name and the
second fails with the "already defined" `RuntimeError` (stated for a name
other than the host names `__proto__` and `hasOwnProperty`, in a context
whose variables are untouched by those names).  A Block body is evaluated
against the same context too, but each evaluation of a block runs its
statements in a newly allocated child context, so a name declared inside the
block is not carried over: the same loop with the declaration wrapped in a
block never raises an error (it never returns). -/
theorem while_body_shares_loop_context (H : Host) :
    (∀ (ev : Node → Nat → State → Res Value) (condition body : Node) (context : Nat)
      (st st1 : State) (c : Value),
      ev condition context st = some (.ok c, st1) → truthy c = true →
      visitWhileStmt ev condition body context st =
        (ev body context st1).andThen fun _ st2 =>
          ev (.whileStmt condition body) context st2) ∧
    (∀ (fuel context : Nat) (st : State) (cx : Context) (x s : String),
      x ≠ "__proto__" → x ≠ "hasOwnProperty" →
      st.contexts[context]? = some cx → cx.vars.own.owns "hasOwnProperty" = false →
      cx.vars.proto = none → cx.vars.own.owns x = false →
      evaluate H (fuel + 5) (.whileStmt trueExpr (.varStmt x (.stringExpr s))) context st =
        some (.error (alreadyDefined x),
          { st with
            contexts := st.contexts.set context
              { cx with vars := { cx.vars with own := cx.vars.own.store x (.str s) } } })) ∧
    (∀ (ev : Node → Nat → State → Res Value) (statements : List Node) (context : Nat)
      (st : State),
      st.contexts[st.contexts.length]? = none ∧
      visitBlockStmt ev statements context st =
        (evaluateEach ev statements st.contexts.length
          { st with contexts := st.contexts ++ [⟨some context, {}⟩] }).andThen
          fun _ st1 => some (.ok .undefined, st1)) ∧
    (∀ (fuel context : Nat) (st : State) (x s : String),
      evaluate H fuel (.whileStmt trueExpr (.blockStmt [.varStmt x (.stringExpr s)]))
        context st = none) := by
  refine ⟨?_, ?_, ?_, fun fuel context st x s => block_loop_never_returns H x s fuel context st⟩
  · intro ev condition body context st st1 c hc ht
    simp [visitWhileStmt, hc, Res.andThen, ht]
  · intro fuel context st cx x s hx1 hx2 hcx hplain hproto hfresh
    have hlt : context < st.contexts.length := lt_length_of_getElem? _ _ _ hcx
    have hbound : definesName
        (st.contexts.set context
          { cx with vars := { cx.vars with own := cx.vars.own.store x (.str s) } })
        context x = true := by
      simp [definesName, List.getElem?_set_self, hlt, Dict.owns_store_self]
    have hplain1 : definesName
        (st.contexts.set context
          { cx with vars := { cx.vars with own := cx.vars.own.store x (.str s) } })
        context "hasOwnProperty" = false := by
      simp [definesName, List.getElem?_set_self, hlt,
        Dict.owns_store_other _ _ _ _ (Ne.symm hx2), hplain]
    rw [evaluate_whileStmt, visitWhileStmt,
      show evaluate H (fuel + 4) trueExpr context st = some (.ok (.bool true), st) from
        evaluate_trueExpr H (fuel + 2) context st]
    simp only [Res.andThen, truthy, if_true]
    rw [show evaluate H (fuel + 4) (.varStmt x (.stringExpr s)) context st = _ from
      evaluate_varStmt_string H (fuel + 2) context st x s,
      define_of_fresh st context cx x (.str s) hcx hplain hproto hx1 hfresh]
    simp only [Res.andThen]
    rw [evaluate_whileStmt, visitWhileStmt,
      show evaluate H (fuel + 3) trueExpr context _ = some (.ok (.bool true), _) from
        evaluate_trueExpr H (fuel + 1) context _]
    simp only [Res.andThen, truthy, if_true]
    rw [show evaluate H (fuel + 3) (.varStmt x (.stringExpr s)) context _ = _ from
      evaluate_varStmt_string H (fuel + 1) context _ x s,
      define_of_bound _ context x (.str s) hplain1 hbound]
    rfl
  · intro ev statements context st
    exact ⟨List.getElem?_eq_none (Nat.le_refl _), rfl⟩

/-- Witness for C19: `while ("a" == "a") var t = "s";` run in the global
context fails at the second turn because `t` is already defined. -/
theorem while_body_shares_loop_context_witness :
    evaluate sampleHost 5 (.whileStmt trueExpr (.varStmt "t" (.stringExpr "s"))) 0 Interpreter =
      some (.error (alreadyDefined "t"),
        { Interpreter with
          contexts := [⟨none, { own := [("print", .native .print), ("t", .str "s")] }⟩] }) :=
  (while_body_shares_loop_context sampleHost).2.1 0 0 Interpreter
    ⟨none, { own := [("print", .native .print)] }⟩ "t" "s" (by decide) (by decide) rfl rfl rfl rfl

/-! ### Blocks -/

/-- C20 fails on the code once a program has declared `var hasOwnProperty =
print;`.  The global context then binds `print` and `hasOwnProperty`; running
the block `{ y = "v"; }` in it returns normally, and afterwards the global
context, which existed before the block was entered, binds the further name
`y`.  Without that declaration the same block fails with "not defined", and
the block `{ var t = "s"; fun g() {} class K {} }` leaves the global context
with the names it had, binds `t`, `g` and `K` in its child context only, and
`t` is not visible from the global context afterwards, as the claim says. -/
theorem block_adds_name_once_hasOwnProperty_is_print :
    interpret sampleHost 2 [.varStmt "hasOwnProperty" (.variableExpr "print")] Interpreter =
        some (.ok (), printShadowedStore) ∧
      ownNames printShadowedStore.contexts 0 = ["print", "hasOwnProperty"] ∧
      (∃ st2, evaluate sampleHost 4 assigningBlock 0 printShadowedStore =
          some (.ok .undefined, st2) ∧
        ownNames st2.contexts 0 = ["print", "hasOwnProperty", "y"] ∧
        ownValue st2.contexts 0 "y" = some (.str "v") ∧
        ownNames st2.contexts 1 = []) ∧
      evaluate sampleHost 4 assigningBlock 0 Interpreter =
        some (.error (notDefined "y"), (newContext Interpreter (some 0)).2) ∧
      (∃ st2, evaluate sampleHost 4 declaringBlock 0 Interpreter = some (.ok .undefined, st2) ∧
        ownNames st2.contexts 0 = ["print"] ∧
        ownNames st2.contexts 1 = ["t", "g", "K"] ∧
        Context.lookUp 0 "t" st2 = some (.error (notDefined "t"), st2)) :=
  ⟨rfl, rfl, ⟨_, rfl, rfl, rfl, rfl⟩, rfl, ⟨_, rfl, rfl, rfl, rfl⟩⟩

end Vox
